import Mathlib

/-!
Shallow embedding of the recursive shadowcasting visibility engine of the
veil repository (src/observation/shadowcast.rs), together with the auxiliary
direction module (src/direction.rs).  Rust f64 values are modelled as exact
rationals, i32 / u32 as Int / Nat.  Fallible operations (Rust assert macros)
are modelled with Except; the engine-external collaborators (vector_index,
spatial_hash, knowledge — not part of the source tree) are modelled from the
specification's interface contract.
-/

namespace Veil

/-- A two dimensional vector, modelling cgmath::Vector2. -/
structure V2 (α : Type) where
  x : α
  y : α
deriving DecidableEq, Repr

/-- From src/direction.rs: the four cardinal directions. -/
inductive CardinalDirection where
  | North
  | East
  | South
  | West
deriving DecidableEq, Repr

/-- From src/direction.rs: the four ordinal directions. -/
inductive OrdinalDirection where
  | NorthEast
  | SouthEast
  | SouthWest
  | NorthWest
deriving DecidableEq, Repr

/-- From src/direction.rs: CardinalDirection::opposite. -/
def CardinalDirection.opposite : CardinalDirection → CardinalDirection
  | .North => .South
  | .East => .West
  | .South => .North
  | .West => .East

/-- From src/direction.rs: CardinalDirection::vector. -/
def CardinalDirection.vector : CardinalDirection → V2 Int
  | .North => ⟨0, -1⟩
  | .East => ⟨1, 0⟩
  | .South => ⟨0, 1⟩
  | .West => ⟨-1, 0⟩

/-- From src/direction.rs: OrdinalDirection::from_cardinals. -/
def OrdinalDirection.from_cardinals :
    CardinalDirection → CardinalDirection → Option OrdinalDirection
  | .North, .East => some .NorthEast
  | .North, .West => some .NorthWest
  | .East, .North => some .NorthEast
  | .East, .South => some .SouthEast
  | .South, .East => some .SouthEast
  | .South, .West => some .SouthWest
  | .West, .North => some .NorthWest
  | .West, .South => some .SouthWest
  | _, _ => none

/-- Modelled from the spec: the vector_index module is not under src/.  A
VectorIndex records whether an axis lives on the x or the y component of a
vector ("identifies which grid axis is depth vs lateral for this octant"). -/
inductive VectorIndex where
  | X
  | Y
deriving DecidableEq, Repr

/-- Modelled from the spec: select the indexed component of a vector. -/
def VectorIndex.get {α : Type} : VectorIndex → V2 α → α
  | .X, v => v.x
  | .Y, v => v.y

/-- Modelled from the spec: select the indexed component of a pair. -/
def VectorIndex.get_tuple {α : Type} : VectorIndex → α × α → α
  | .X, p => p.1
  | .Y, p => p.2

/-- Modelled from the spec: overwrite the indexed component of a vector. -/
def VectorIndex.set {α : Type} : VectorIndex → V2 α → α → V2 α
  | .X, v, a => ⟨a, v.y⟩
  | .Y, v, a => ⟨v.x, a⟩

/-- Modelled from the spec: build a coordinate with the indexed component set
to the given value (the other component is filled in before use). -/
def VectorIndex.create_coord : VectorIndex → Int → V2 Int
  | .X, a => ⟨a, 0⟩
  | .Y, a => ⟨0, a⟩

/-- Modelled from the spec: the axis on which a cardinal direction moves. -/
def VectorIndex.from_card : CardinalDirection → VectorIndex
  | .North => .Y
  | .South => .Y
  | .East => .X
  | .West => .X

/-- From src/observation/shadowcast.rs: the two rounding policies. -/
inductive RoundType where
  | Floor
  | ExclusiveFloor
deriving DecidableEq, Repr

/-- From src/observation/shadowcast.rs: RoundType::round.  Floor is
x.floor(); ExclusiveFloor is (x - 1.0).ceil(). -/
def RoundType.round : RoundType → Rat → Int
  | .Floor, x => Int.floor x
  | .ExclusiveFloor, x => Int.ceil (x - 1)

/-- From src/observation/shadowcast.rs: centre point of a grid cell. -/
def cell_centre (coord : V2 Int) : V2 Rat :=
  ⟨(coord.x : Rat) + 1/2, (coord.y : Rat) + 1/2⟩

/-- From src/observation/shadowcast.rs: a corner point of a grid cell. -/
def cell_corner (coord : V2 Int) (dir : OrdinalDirection) : V2 Rat :=
  match dir with
  | .NorthEast => ⟨((coord.x + 1 : Int) : Rat), (coord.y : Rat)⟩
  | .SouthEast => ⟨((coord.x + 1 : Int) : Rat), ((coord.y + 1 : Int) : Rat)⟩
  | .SouthWest => ⟨(coord.x : Rat), ((coord.y + 1 : Int) : Rat)⟩
  | .NorthWest => ⟨(coord.x : Rat), (coord.y : Rat)⟩

/-- From src/observation/shadowcast.rs: classification of an octant. -/
structure Octant where
  depth_idx : VectorIndex
  lateral_idx : VectorIndex
  depth_step : Int
  lateral_step : Int
  lateral_step_float : Rat
  opacity_increase_corner : OrdinalDirection
  opacity_decrease_corner : OrdinalDirection
  round_start : RoundType
  round_end : RoundType
deriving DecidableEq, Repr

/-- From src/observation/shadowcast.rs: Octant::new.  The Rust constructor is
fallible through assert! and expect; a failure is modelled as none (every
construction in the fixed octant table succeeds). -/
def Octant.new? (card_depth_dir card_lateral_dir : CardinalDirection) :
    Option Octant :=
  let depth_dir := card_depth_dir.vector
  let lateral_dir := card_lateral_dir.vector
  let depth_step := (VectorIndex.from_card card_depth_dir).get depth_dir
  let lateral_step := (VectorIndex.from_card card_lateral_dir).get lateral_dir
  let rounds : Option (RoundType × RoundType) :=
    if lateral_step = 1 then some (.Floor, .ExclusiveFloor)
    else if lateral_step = -1 then some (.ExclusiveFloor, .Floor)
    else none
  match rounds,
      OrdinalDirection.from_cardinals card_depth_dir card_lateral_dir.opposite,
      OrdinalDirection.from_cardinals card_depth_dir.opposite
        card_lateral_dir.opposite with
  | some (round_start, round_end), some inc, some dec =>
    some
      { depth_idx := VectorIndex.from_card card_depth_dir
        lateral_idx := VectorIndex.from_card card_lateral_dir
        depth_step := depth_step
        lateral_step := lateral_step
        lateral_step_float := (lateral_step : Rat)
        opacity_increase_corner := inc
        opacity_decrease_corner := dec
        round_start := round_start
        round_end := round_end }
  | _, _, _ => none

/-- From src/observation/shadowcast.rs: Octant::compute_slope, the absolute
ratio of lateral to depth displacement between two continuous points. -/
def Octant.compute_slope (o : Octant) (from_ to_ : V2 Rat) : Rat :=
  |(o.lateral_idx.get to_ - o.lateral_idx.get from_) /
    (o.depth_idx.get to_ - o.depth_idx.get from_)|

/-- From src/observation/shadowcast.rs: a stack frame of the traversal. -/
structure Frame where
  depth : Nat
  min_slope : Rat
  max_slope : Rat
  visibility : Rat
deriving DecidableEq, Repr

/-- From src/observation/shadowcast.rs: Frame::new. -/
def Frame.new (depth : Nat) (min_slope max_slope visibility : Rat) : Frame :=
  { depth := depth
    min_slope := min_slope
    max_slope := max_slope
    visibility := visibility }

/-- Modelled from the spec: the per-cell payload delivered by the opacity
source.  The engine reads only the accumulated opacity and forwards the cell
to the knowledge sink otherwise untouched. -/
structure Cell where
  opacity_total : Rat
deriving DecidableEq, Repr

/-- Modelled from the spec: the spatial_hash crate is not under src/.  The
opacity source exposes a (width, height) pair and per-coordinate lookup that
may report absence. -/
structure SpatialHashTable where
  width : Nat
  height : Nat
  cells : Int → Int → Option Cell

/-- Modelled from the spec: coordinate lookup on the opacity source. -/
def SpatialHashTable.get (w : SpatialHashTable) (coord : V2 Int) : Option Cell :=
  w.cells coord.x coord.y

/-- Modelled from the spec: observation metadata is a small fixed set of
boolean flags combinable by bitwise OR ("newly seen", "content changed"). -/
structure ObservationMetadata where
  seen : Bool
  changed : Bool
deriving DecidableEq, Repr

/-- Modelled from the spec: bitwise OR of observation metadata. -/
def ObservationMetadata.or (a b : ObservationMetadata) : ObservationMetadata :=
  ⟨a.seen || b.seen, a.changed || b.changed⟩

/-- Modelled from the spec: Default::default() for observation metadata. -/
def ObservationMetadata.empty : ObservationMetadata := ⟨false, false⟩

/-- Modelled from the spec: the knowledge sink contract.  It exposes set_time
and update_cell; update_cell may mutate the sink's own state (modelled by
explicit state passing) and returns metadata.  The immutable entity store
argument of the Rust trait is constant over a call and is absorbed into the
closures. -/
structure KnowledgeGrid (K : Type) where
  set_time : K → Nat → K
  update_cell : K → V2 Int → Cell → K × ObservationMetadata

/-- Instrumentation of the calls the engine makes into the knowledge sink,
in order: one set_time event, then one update event per reported cell
carrying the metadata the sink returned. -/
inductive Event where
  | timeSet (t : Nat)
  | cellUpdate (coord : V2 Int) (cell : Cell) (m : ObservationMetadata)
deriving DecidableEq, Repr

/-- The coordinate of an update event, if any. -/
def Event.coord? : Event → Option (V2 Int)
  | .timeSet _ => none
  | .cellUpdate coord _ _ => some coord

/-- The metadata produced by an event (set_time produces none). -/
def Event.meta : Event → ObservationMetadata
  | .timeSet _ => ObservationMetadata.empty
  | .cellUpdate _ _ m => m

/-- The distinct assertion sites of the engine: the four slope-range
assertions at the top of Scan::new, and the slope-range assertions on a
computed transition slope inside the row scanner. -/
inductive PanicKind where
  | frameRange
  | slopeRange
deriving DecidableEq, Repr

/-- Decidable equality for Except results, used to evaluate the engine on
concrete inputs. -/
instance {ε α : Type} [DecidableEq ε] [DecidableEq α] :
    DecidableEq (Except ε α) := fun a b =>
  match a, b with
  | .error e, .error e' =>
    if h : e = e' then isTrue (by rw [h])
    else isFalse (by intro hh; injection hh; exact h (by assumption))
  | .ok x, .ok y =>
    if h : x = y then isTrue (by rw [h])
    else isFalse (by intro hh; injection hh; exact h (by assumption))
  | .error _, .ok _ => isFalse (by intro hh; exact Except.noConfusion hh)
  | .ok _, .error _ => isFalse (by intro hh; exact Except.noConfusion hh)

/-- From src/observation/shadowcast.rs: per-octant per-observation limits. -/
structure Limits where
  depth_min : Int
  depth_max : Int
  lateral_min : Int
  lateral_max : Int
  eye_centre : V2 Rat
  eye_lateral_pos : Rat
  eye_depth_idx : Int
deriving DecidableEq, Repr

/-- From src/observation/shadowcast.rs: Limits::new.  The Rust code computes
width() - 1 and height() - 1 on unsigned integers; the subtraction is
modelled on Int. -/
def Limits.new (eye : V2 Int) (world : SpatialHashTable) (octant : Octant) :
    Limits :=
  let eye_centre := cell_centre eye
  let world_limits : Int × Int := ((world.width : Int) - 1, (world.height : Int) - 1)
  { depth_min := 0
    depth_max := octant.depth_idx.get_tuple world_limits
    lateral_min := 0
    lateral_max := octant.lateral_idx.get_tuple world_limits
    eye_centre := eye_centre
    eye_lateral_pos := octant.lateral_idx.get eye_centre
    eye_depth_idx := octant.depth_idx.get eye }

/-- From src/observation/shadowcast.rs: the ephemeral row descriptor.  The
Rust struct borrows the limits and the frame; copies are stored instead. -/
structure Scan where
  depth_idx : Int
  start_lateral_idx : Int
  end_lateral_idx : Int
  limits : Limits
  frame : Frame
deriving DecidableEq, Repr

/-- From src/observation/shadowcast.rs, Scan::new: the absolute index in the
depth direction of the row described by a frame. -/
def scanDepthAbs (limits : Limits) (frame : Frame) (octant : Octant) : Int :=
  limits.eye_depth_idx + (frame.depth : Int) * octant.depth_step

/-- From src/observation/shadowcast.rs, Scan::new: the lateral index at which
the scan starts, through the min slope at the inner side of the row (the
0.5 offsets come from the eye sitting at the centre of its cell). -/
def scanStartIdx (limits : Limits) (frame : Frame) (octant : Octant) : Int :=
  octant.round_start.round (limits.eye_lateral_pos +
    frame.min_slope * ((frame.depth : Rat) - 1/2) * octant.lateral_step_float)

/-- From src/observation/shadowcast.rs, Scan::new: the unclamped lateral
index at which the scan stops, through the max slope at the outer side of
the row. -/
def scanEndIdxRaw (limits : Limits) (frame : Frame) (octant : Octant) : Int :=
  octant.round_end.round (limits.eye_lateral_pos +
    frame.max_slope * (((frame.depth : Rat) - 1/2) + 1) *
      octant.lateral_step_float)

/-- From src/observation/shadowcast.rs: Scan::new.  The four slope-range
assertions are modelled as an Except error; returning ok none signals
"nothing to scan". -/
def Scan.new (limits : Limits) (frame : Frame) (octant : Octant)
    (distance : Nat) : Except PanicKind (Option Scan) :=
  if ¬(0 ≤ frame.min_slope ∧ frame.min_slope ≤ 1 ∧
      0 ≤ frame.max_slope ∧ frame.max_slope ≤ 1) then
    .error .frameRange
  else if frame.depth > distance then
    .ok none
  else if scanDepthAbs limits frame octant < limits.depth_min ∨
      scanDepthAbs limits frame octant > limits.depth_max then
    .ok none
  else if scanStartIdx limits frame octant < limits.lateral_min ∨
      scanStartIdx limits frame octant > limits.lateral_max then
    .ok none
  else
    .ok (some
      { depth_idx := scanDepthAbs limits frame octant
        start_lateral_idx := scanStartIdx limits frame octant
        end_lateral_idx := min (max (scanEndIdxRaw limits frame octant)
          limits.lateral_min) limits.lateral_max
        limits := limits
        frame := frame })

/-- From src/observation/shadowcast.rs: the per-octant scan arguments. -/
structure OctantArgs where
  octant : Octant
  world : SpatialHashTable
  eye : V2 Int
  distance : Nat
  distance_squared : Int
  initial_min_slope : Rat
  initial_max_slope : Rat

/-- From src/observation/shadowcast.rs: OctantArgs::new. -/
def OctantArgs.new (octant : Octant) (world : SpatialHashTable) (eye : V2 Int)
    (distance : Nat) (initial_min_slope initial_max_slope : Rat) : OctantArgs :=
  { octant := octant
    world := world
    eye := eye
    distance := distance
    distance_squared := ((distance * distance : Nat) : Int)
    initial_min_slope := initial_min_slope
    initial_max_slope := initial_max_slope }

/-- The mutable state of one execution of the row scanner: the frame stack
(head is the top), the loop-local mutable variables of fn scan, the knowledge
sink state, and instrumentation (events emitted, frames pushed in order). -/
structure ScanState (K : Type) where
  stack : List Frame
  first_iteration : Bool
  previous_opaque_b : Bool
  previous_visibility : Rat
  min_slope : Rat
  metadata : ObservationMetadata
  k : K
  events : List Event
  pushed : List Frame
deriving DecidableEq

/-- Push a frame: onto the stack, and into the instrumentation log. -/
def ScanState.push {K : Type} (st : ScanState K) (f : Frame) : ScanState K :=
  { st with stack := f :: st.stack, pushed := st.pushed ++ [f] }

/-- The grid coordinate visited by the row scanner at a given lateral index. -/
def scanCoord (octant : Octant) (depth_idx lateral : Int) : V2 Int :=
  octant.lateral_idx.set (octant.depth_idx.create_coord depth_idx) lateral

/-- The report block of fn scan (src/observation/shadowcast.rs, lines
331-336): when the squared euclidean distance from the eye is strictly
below the squared view distance, invoke the knowledge sink's update_cell
and merge the returned metadata. -/
def reportCell {K : Type} (ki : KnowledgeGrid K) (args : OctantArgs)
    (coord : V2 Int) (cell : Cell) (st : ScanState K) : ScanState K :=
  let between : V2 Int := ⟨coord.x - args.eye.x, coord.y - args.eye.y⟩
  let distance_squared := between.x * between.x + between.y * between.y
  if distance_squared < args.distance_squared then
    let km := ki.update_cell st.k coord cell
    { st with
      k := km.1
      metadata := st.metadata.or km.2
      events := st.events ++ [Event.cellUpdate coord cell km.2] }
  else st

/-- The corner selection of fn scan (src/observation/shadowcast.rs, lines
345-352): on a visibility increase look through the opacity-decrease
corner, on a decrease through the opacity-increase corner, otherwise no
boundary exists. -/
def transitionCorner (octant : Octant)
    (current_visibility previous_visibility : Rat) : Option OrdinalDirection :=
  if current_visibility > previous_visibility then
    some octant.opacity_decrease_corner
  else if current_visibility < previous_visibility then
    some octant.opacity_increase_corner
  else none

/-- The transition block of fn scan (src/observation/shadowcast.rs, lines
343-372): skipped on the first present cell; otherwise, at a visibility
boundary, compute the slope through the selected corner (asserted to lie in
the unit interval), push the just-completed region unless the previous cell
was opaque, and continue the row from the transition slope. -/
def processTransition {K : Type} (args : OctantArgs) (sc : Scan)
    (coord : V2 Int) (current_visibility : Rat) (st : ScanState K) :
    Except PanicKind (ScanState K) :=
  if st.first_iteration then .ok st
  else
    match transitionCorner args.octant current_visibility
        st.previous_visibility with
    | none => .ok st
    | some corner =>
      let corner_coord := cell_corner coord corner
      let slope := args.octant.compute_slope sc.limits.eye_centre corner_coord
      if 0 ≤ slope ∧ slope ≤ 1 then
        let st :=
          if st.previous_opaque_b = false then
            st.push (Frame.new (sc.frame.depth + 1) st.min_slope slope
              st.previous_visibility)
          else st
        .ok { st with min_slope := slope }
      else .error .slopeRange

/-- The tail of one loop iteration of fn scan (src/observation/shadowcast.rs,
lines 374-384): on the last lateral index push the final open region unless
the current cell is opaque, then roll the previous-cell state forward. -/
def finishCell {K : Type} (sc : Scan) (last_iteration : Bool)
    (current_visibility : Rat) (st : ScanState K) : ScanState K :=
  let current_opaque_b := current_visibility = 0
  let st :=
    if last_iteration ∧ ¬current_opaque_b then
      st.push (Frame.new (sc.frame.depth + 1) st.min_slope
        sc.frame.max_slope current_visibility)
    else st
  { st with
    previous_opaque_b := current_opaque_b
    previous_visibility := current_visibility
    first_iteration := false }

/-- One iteration of the while loop of fn scan
(src/observation/shadowcast.rs, lines 315-387) at lateral index idx.  A
cell without grid data is skipped without altering state. -/
def scanStep {K : Type} (ki : KnowledgeGrid K) (args : OctantArgs) (sc : Scan)
    (idx : Int) (st : ScanState K) : Except PanicKind (ScanState K) :=
  match args.world.get (scanCoord args.octant sc.depth_idx idx) with
  | none => .ok st
  | some cell =>
    match processTransition args sc (scanCoord args.octant sc.depth_idx idx)
        (max (sc.frame.visibility - cell.opacity_total) 0)
        (reportCell ki args (scanCoord args.octant sc.depth_idx idx) cell st) with
    | .error e => .error e
    | .ok st' =>
      .ok (finishCell sc (idx == sc.end_lateral_idx)
        (max (sc.frame.visibility - cell.opacity_total) 0) st')

/-- The lateral indices visited by the while loop: count indices starting at
start, advancing by step. -/
def scanIndices (start step : Int) : Nat → List Int
  | 0 => []
  | n + 1 => start :: scanIndices (start + step) step n

/-- The number of iterations of the while loop of fn scan: the loop runs from
start_lateral_idx until it reaches end_lateral_idx + lateral_step.  (When the
stop index lies against the step direction the count is zero; with the
frame invariants of the traversal the stop index is never more than one step
against the direction, where the Rust loop also performs zero iterations.) -/
def scanLen (octant : Octant) (sc : Scan) : Nat :=
  ((sc.end_lateral_idx + octant.lateral_step - sc.start_lateral_idx) *
    octant.lateral_step).toNat

/-- Run the row scanner over a list of lateral indices. -/
def scanGo {K : Type} (ki : KnowledgeGrid K) (args : OctantArgs) (sc : Scan) :
    List Int → ScanState K → Except PanicKind (ScanState K)
  | [], st => .ok st
  | idx :: rest, st =>
    match scanStep ki args sc idx st with
    | .error e => .error e
    | .ok st' => scanGo ki args sc rest st'

/-- From src/observation/shadowcast.rs: fn scan.  Takes the current frame
stack and knowledge state; returns the updated scan state (stack, knowledge,
metadata accumulated over this row, events, pushed frames). -/
def scan {K : Type} (ki : KnowledgeGrid K) (args : OctantArgs) (sc : Scan)
    (stack : List Frame) (k : K) : Except PanicKind (ScanState K) :=
  scanGo ki args sc
    (scanIndices sc.start_lateral_idx args.octant.lateral_step
      (scanLen args.octant sc))
    { stack := stack
      first_iteration := true
      previous_opaque_b := false
      previous_visibility := -1
      min_slope := sc.frame.min_slope
      metadata := ObservationMetadata.empty
      k := k
      events := []
      pushed := [] }

/-- The result of driving one octant's frame stack to exhaustion. -/
structure OctRun (K : Type) where
  k : K
  metadata : ObservationMetadata
  events : List Event
  pushed : List Frame
deriving DecidableEq

/-- The while-let pop loop of detect_visible_area_octant, with explicit
fuel: each pop consumes one unit; none means the fuel ran out. -/
def runStack {K : Type} (ki : KnowledgeGrid K) (args : OctantArgs)
    (limits : Limits) :
    Nat → List Frame → OctRun K → Option (Except PanicKind (OctRun K))
  | _, [], acc => some (.ok acc)
  | 0, _ :: _, _ => none
  | fuel + 1, frame :: rest, acc =>
    match Scan.new limits frame args.octant args.distance with
    | .error e => some (.error e)
    | .ok none => runStack ki args limits fuel rest acc
    | .ok (some sc) =>
      match scan ki args sc rest acc.k with
      | .error e => some (.error e)
      | .ok st =>
        runStack ki args limits fuel st.stack
          { k := st.k
            metadata := acc.metadata.or st.metadata
            events := acc.events ++ st.events
            pushed := acc.pushed ++ st.pushed }

/-- From src/observation/shadowcast.rs: detect_visible_area_octant.  Seeds
the stack with a single initial frame and drives it to exhaustion.  The seed
frame is recorded in the pushed-frame instrumentation log. -/
def detect_visible_area_octant {K : Type} (ki : KnowledgeGrid K)
    (args : OctantArgs) (fuel : Nat) (k : K) :
    Option (Except PanicKind (OctRun K)) :=
  let limits := Limits.new args.eye args.world args.octant
  let seed := Frame.new 1 args.initial_min_slope args.initial_max_slope 1
  runStack ki args limits fuel [seed]
    { k := k
      metadata := ObservationMetadata.empty
      events := []
      pushed := [seed] }

/-- From src/observation/shadowcast.rs: the reusable environment holding the
fixed octant table, in the order one would visit each octant starting at -PI
radians and moving anticlockwise. -/
structure ShadowcastEnv where
  octants : List Octant

/-- From src/observation/shadowcast.rs: ShadowcastEnv::new. -/
def ShadowcastEnv.new : ShadowcastEnv :=
  { octants :=
      [Octant.new? .West .South,
        Octant.new? .South .West,
        Octant.new? .South .East,
        Octant.new? .East .South,
        Octant.new? .East .North,
        Octant.new? .North .East,
        Octant.new? .North .West,
        Octant.new? .West .North].filterMap id }

/-- The per-octant for loop of fn observe: run each octant in table order,
threading the knowledge state and merging metadata with bitwise OR. -/
def runOctants {K : Type} (ki : KnowledgeGrid K) (world : SpatialHashTable)
    (eye : V2 Int) (distance : Nat) (fuel : Nat) :
    List Octant → OctRun K → Option (Except PanicKind (OctRun K))
  | [], acc => some (.ok acc)
  | octant :: rest, acc =>
    let args := OctantArgs.new octant world eye distance 0 1
    match detect_visible_area_octant ki args fuel acc.k with
    | none => none
    | some (.error e) => some (.error e)
    | some (.ok r) =>
      runOctants ki world eye distance fuel rest
        { k := r.k
          metadata := acc.metadata.or r.metadata
          events := acc.events ++ r.events
          pushed := acc.pushed ++ r.pushed }

/-- From src/observation/shadowcast.rs: fn observe, the public entry point.
It records the time, reports the eye's own cell when the grid has data
there, then drives all octants in table order, merging metadata.  The fuel
bounds each octant's pop loop; none means some octant ran out of fuel. -/
def observe {K : Type} (ki : KnowledgeGrid K) (env : ShadowcastEnv)
    (eye : V2 Int) (world : SpatialHashTable) (distance : Nat)
    (time : Nat) (fuel : Nat) (k : K) :
    Option (Except PanicKind (OctRun K)) :=
  let k := ki.set_time k time
  let start : OctRun K :=
    match world.get eye with
    | some eye_cell =>
      let km := ki.update_cell k eye eye_cell
      { k := km.1
        metadata := km.2
        events := [Event.timeSet time, Event.cellUpdate eye eye_cell km.2]
        pushed := [] }
    | none =>
      { k := k
        metadata := ObservationMetadata.empty
        events := [Event.timeSet time]
        pushed := [] }
  runOctants ki world eye distance fuel env.octants start

/-! ## Concrete instances used by witnesses and counterexamples -/

/-- A trivial knowledge sink over the unit state: every update reports the
"newly seen" flag. -/
def kiUnit : KnowledgeGrid Unit :=
  { set_time := fun k _ => k
    update_cell := fun k _ _ => (k, ⟨true, false⟩) }

/-- The octant scanning East in depth and South laterally, as built by the
octant table. -/
def octES : Octant :=
  { depth_idx := .X
    lateral_idx := .Y
    depth_step := 1
    lateral_step := 1
    lateral_step_float := 1
    opacity_increase_corner := .NorthEast
    opacity_decrease_corner := .NorthWest
    round_start := .Floor
    round_end := .ExclusiveFloor }

/-- A fully transparent 2 by 2 world. -/
def worldTiny : SpatialHashTable :=
  { width := 2
    height := 2
    cells := fun x y =>
      if 0 ≤ x ∧ x < 2 ∧ 0 ≤ y ∧ y < 2 then some ⟨0⟩ else none }

/-- The limits of worldTiny for octES with the eye at the origin. -/
def limitsTiny : Limits := Limits.new ⟨0, 0⟩ worldTiny octES

/-- The depth-1 row of worldTiny under the full slope interval. -/
def scanTiny : Scan :=
  { depth_idx := 1
    start_lateral_idx := 0
    end_lateral_idx := 1
    limits := limitsTiny
    frame := Frame.new 1 0 1 1 }

/-- The initial state of the row scanner on scanTiny with an empty stack. -/
def stTiny0 : ScanState Unit :=
  { stack := []
    first_iteration := true
    previous_opaque_b := false
    previous_visibility := -1
    min_slope := 0
    metadata := ObservationMetadata.empty
    k := ()
    events := []
    pushed := [] }

/-- The state after the first iteration of the row scanner on scanTiny. -/
def stTiny1 : ScanState Unit :=
  { stack := []
    first_iteration := false
    previous_opaque_b := false
    previous_visibility := 1
    min_slope := 0
    metadata := ⟨true, false⟩
    k := ()
    events := [Event.cellUpdate ⟨1, 0⟩ ⟨0⟩ ⟨true, false⟩]
    pushed := [] }

/-- The state after the second (last) iteration of the row scanner on
scanTiny: the open end of the row is pushed forward. -/
def stTiny2 : ScanState Unit :=
  { stack := [Frame.new 2 0 1 1]
    first_iteration := false
    previous_opaque_b := false
    previous_visibility := 1
    min_slope := 0
    metadata := ⟨true, false⟩
    k := ()
    events := [Event.cellUpdate ⟨1, 0⟩ ⟨0⟩ ⟨true, false⟩,
      Event.cellUpdate ⟨1, 1⟩ ⟨0⟩ ⟨true, false⟩]
    pushed := [Frame.new 2 0 1 1] }

/-- The octant arguments for worldTiny at view distance 2. -/
def argsTiny : OctantArgs := OctantArgs.new octES worldTiny ⟨0, 0⟩ 2 0 1

/-- A 5 by 5 world, transparent except for an opaque cell at (3, 3). -/
def worldC4 : SpatialHashTable :=
  { width := 5
    height := 5
    cells := fun x y =>
      if 0 ≤ x ∧ x < 5 ∧ 0 ≤ y ∧ y < 5 then
        some ⟨if x = 3 ∧ y = 3 then 1 else 0⟩
      else none }

/-- The limits of worldC4 for octES with the eye at the origin. -/
def limitsC4 : Limits := Limits.new ⟨0, 0⟩ worldC4 octES

/-- The octant arguments for worldC4 at view distance 5. -/
def argsC4 : OctantArgs := OctantArgs.new octES worldC4 ⟨0, 0⟩ 5 0 1

/-- The depth-3 row of worldC4 under the slope interval [9/10, 1]. -/
def scanC4 : Scan :=
  { depth_idx := 3
    start_lateral_idx := 2
    end_lateral_idx := 3
    limits := limitsC4
    frame := Frame.new 3 (9/10) 1 1 }

/-- The Scan produced for an inverted frame (min slope 1, max slope 0) at
depth 1: its start index exceeds its end index, so no cell is visited. -/
def scInvC4 : Scan :=
  { depth_idx := 1
    start_lateral_idx := 1
    end_lateral_idx := 0
    limits := limitsC4
    frame := Frame.new 1 1 0 1 }

/-- A 5 by 5 world with alternating opacity along the column x = 4: cells
(4,1) and (4,3) are opaque, the rest transparent. -/
def worldC5 : SpatialHashTable :=
  { width := 5
    height := 5
    cells := fun x y =>
      if 0 ≤ x ∧ x < 5 ∧ 0 ≤ y ∧ y < 5 then
        some ⟨if x = 4 ∧ (y = 1 ∨ y = 3) then 1 else 0⟩
      else none }

/-- The limits of worldC5 for octES with the eye at the origin. -/
def limitsC5 : Limits := Limits.new ⟨0, 0⟩ worldC5 octES

/-- The octant arguments for worldC5 at view distance 5. -/
def argsC5 : OctantArgs := OctantArgs.new octES worldC5 ⟨0, 0⟩ 5 0 1

/-- The full-interval frame at depth 4 of worldC5. -/
def frameC5 : Frame := Frame.new 4 0 1 1

/-- The depth-4 row of worldC5 under the full slope interval: five cells of
alternating visibility. -/
def scanC5 : Scan :=
  { depth_idx := 4
    start_lateral_idx := 0
    end_lateral_idx := 4
    limits := limitsC5
    frame := frameC5 }

/-! ## Claim theorems -/

/-- C8: Floor.round is the greatest integer less than or equal to its
argument, and ExclusiveFloor.round agrees with it on non-integers but steps
one further down on exact integers. -/
theorem roundtype_round_characterisation (x : Rat) :
    RoundType.Floor.round x = Int.floor x ∧
    RoundType.ExclusiveFloor.round x =
      (if (Int.floor x : Rat) = x then Int.floor x - 1 else Int.floor x) := by
  refine ⟨rfl, ?_⟩
  show Int.ceil (x - 1) = _
  rw [Int.ceil_sub_one]
  by_cases h : (Int.floor x : Rat) = x
  · rw [if_pos h]
    have hc : Int.ceil x = Int.floor x := by
      conv_lhs => rw [← h]
      exact Int.ceil_intCast _
    omega
  · rw [if_neg h]
    have h1 : (Int.floor x : Rat) < x := lt_of_le_of_ne (Int.floor_le x) h
    have h2 : Int.ceil x = Int.floor x + 1 := by
      refine le_antisymm ?_ ?_
      · refine Int.ceil_le.mpr ?_
        push_cast
        have := Int.lt_floor_add_one x
        linarith
      · have hlt : (Int.floor x : Rat) < (Int.ceil x : Rat) :=
          lt_of_lt_of_le h1 (Int.le_ceil x)
        exact_mod_cast Int.lt_iff_add_one_le.mp (by exact_mod_cast hlt)
    omega

/-- The report phase changes only the knowledge state, the metadata and the
event log. -/
theorem reportCell_preserves {K : Type} (ki : KnowledgeGrid K)
    (args : OctantArgs) (coord : V2 Int) (cell : Cell) (st : ScanState K) :
    (reportCell ki args coord cell st).stack = st.stack ∧
    (reportCell ki args coord cell st).pushed = st.pushed ∧
    (reportCell ki args coord cell st).first_iteration = st.first_iteration ∧
    (reportCell ki args coord cell st).previous_opaque_b = st.previous_opaque_b ∧
    (reportCell ki args coord cell st).previous_visibility =
      st.previous_visibility ∧
    (reportCell ki args coord cell st).min_slope = st.min_slope := by
  unfold reportCell
  dsimp only []
  split <;> exact ⟨rfl, rfl, rfl, rfl, rfl, rfl⟩

/-- Field values of the finish phase of one scan iteration. -/
theorem finishCell_fields {K : Type} (sc : Scan) (b : Bool) (v : Rat)
    (st : ScanState K) :
    (finishCell sc b v st).pushed = st.pushed ++
      (if b = true ∧ ¬v = 0 then
        [Frame.new (sc.frame.depth + 1) st.min_slope sc.frame.max_slope v]
      else []) ∧
    (finishCell sc b v st).stack =
      (if b = true ∧ ¬v = 0 then
        [Frame.new (sc.frame.depth + 1) st.min_slope sc.frame.max_slope v]
      else []) ++ st.stack ∧
    (finishCell sc b v st).min_slope = st.min_slope ∧
    (finishCell sc b v st).previous_visibility = v ∧
    (finishCell sc b v st).previous_opaque_b = decide (v = 0) ∧
    (finishCell sc b v st).first_iteration = false ∧
    (finishCell sc b v st).metadata = st.metadata ∧
    (finishCell sc b v st).events = st.events ∧
    (finishCell sc b v st).k = st.k := by
  unfold finishCell
  dsimp only []
  by_cases h : b = true ∧ ¬v = 0 <;> simp [ScanState.push, h]

/-- Characterisation of the transition phase on a non-first iteration. -/
theorem processTransition_ok {K : Type} (args : OctantArgs) (sc : Scan)
    (coord : V2 Int) (v : Rat) (st st' : ScanState K)
    (hfirst : st.first_iteration = false)
    (h : processTransition args sc coord v st = .ok st') :
    match transitionCorner args.octant v st.previous_visibility with
    | none => st' = st
    | some c =>
      (0 ≤ args.octant.compute_slope sc.limits.eye_centre
          (cell_corner coord c) ∧
        args.octant.compute_slope sc.limits.eye_centre
          (cell_corner coord c) ≤ 1) ∧
      st' =
        { (if st.previous_opaque_b = false then
            st.push (Frame.new (sc.frame.depth + 1) st.min_slope
              (args.octant.compute_slope sc.limits.eye_centre
                (cell_corner coord c))
              st.previous_visibility)
          else st) with
          min_slope := args.octant.compute_slope sc.limits.eye_centre
            (cell_corner coord c) } := by
  unfold processTransition at h
  rw [hfirst] at h
  simp only [Bool.false_eq_true, if_false] at h
  rcases hc : transitionCorner args.octant v st.previous_visibility with _ | c <;>
    rw [hc] at h
  · simpa using h.symm
  · dsimp only [] at h
    simp only []
    by_cases hs : 0 ≤ args.octant.compute_slope sc.limits.eye_centre
        (cell_corner coord c) ∧
        args.octant.compute_slope sc.limits.eye_centre (cell_corner coord c) ≤ 1
    · rw [if_pos hs] at h
      simp only [Except.ok.injEq] at h
      exact ⟨hs, h.symm⟩
    · rw [if_neg hs] at h
      exact absurd h (by simp)

/-- C1: for a visited cell for which the grid returns data, the row scanner
computes the cell's effective visibility as max(frame.visibility -
cell.opacity_total, 0), and records the cell as opaque for continuation
purposes exactly when that value equals zero. -/
theorem scan_effective_visibility {K : Type} (ki : KnowledgeGrid K)
    (args : OctantArgs) (sc : Scan) (idx : Int) (st st' : ScanState K)
    (cell : Cell)
    (hget : args.world.get (scanCoord args.octant sc.depth_idx idx) = some cell)
    (hstep : scanStep ki args sc idx st = .ok st') :
    st'.previous_visibility = max (sc.frame.visibility - cell.opacity_total) 0 ∧
    (st'.previous_opaque_b = true ↔
      max (sc.frame.visibility - cell.opacity_total) 0 = 0) := by
  unfold scanStep at hstep
  rw [hget] at hstep
  dsimp only [] at hstep
  rcases hp : processTransition args sc (scanCoord args.octant sc.depth_idx idx)
      (max (sc.frame.visibility - cell.opacity_total) 0)
      (reportCell ki args (scanCoord args.octant sc.depth_idx idx) cell st)
    with e | stB <;> rw [hp] at hstep
  · exact absurd hstep (by simp)
  · simp only [Except.ok.injEq] at hstep
    subst hstep
    refine ⟨(finishCell_fields _ _ _ _).2.2.2.1, ?_⟩
    rw [(finishCell_fields _ _ _ _).2.2.2.2.1]
    simp

/-- Follows the spec's words (section 4.2, items 4-5): the frames one loop
iteration of the row scanner pushes and the updated running min slope, as a
function of the current cell's effective visibility v, the previous present
cell's effective visibility pv, the running min slope, the previous cell's
opacity flag and whether this is the last lateral cell.  On an increase the
transition slope goes through the opacity-decrease corner, on a decrease
through the opacity-increase corner; the just-finished region is pushed
exactly when the previous cell was not fully opaque; the final region is
pushed exactly when the row's last cell is not fully opaque. -/
def specTransitionResult (octant : Octant) (sc : Scan) (coord : V2 Int)
    (v pv min0 : Rat) (prevOpaque isLast : Bool) : List Frame × Rat :=
  let corner? : Option OrdinalDirection :=
    if v > pv then some octant.opacity_decrease_corner
    else if v < pv then some octant.opacity_increase_corner
    else none
  let tslope? := corner?.map
    (fun c => octant.compute_slope sc.limits.eye_centre (cell_corner coord c))
  let min' := tslope?.getD min0
  let transPush : List Frame :=
    match tslope? with
    | some s =>
      if prevOpaque = false then [Frame.new (sc.frame.depth + 1) min0 s pv]
      else []
    | none => []
  let finalPush : List Frame :=
    if isLast = true ∧ ¬v = 0 then
      [Frame.new (sc.frame.depth + 1) min' sc.frame.max_slope v]
    else []
  (transPush ++ finalPush, min')

/-- Computation rule for specTransitionResult when no boundary exists. -/
theorem specTransitionResult_none (octant : Octant) (sc : Scan) (coord : V2 Int)
    (v pv min0 : Rat) (po last : Bool)
    (h : transitionCorner octant v pv = none) :
    specTransitionResult octant sc coord v pv min0 po last =
      ((if last = true ∧ ¬v = 0 then
        [Frame.new (sc.frame.depth + 1) min0 sc.frame.max_slope v]
      else []), min0) := by
  unfold specTransitionResult
  have hc : (if v > pv then some octant.opacity_decrease_corner
      else if v < pv then some octant.opacity_increase_corner
      else none) = transitionCorner octant v pv := rfl
  rw [hc, h]
  rfl

/-- Computation rule for specTransitionResult at a boundary through corner c. -/
theorem specTransitionResult_some (octant : Octant) (sc : Scan) (coord : V2 Int)
    (v pv min0 : Rat) (po last : Bool) (c : OrdinalDirection)
    (h : transitionCorner octant v pv = some c) :
    specTransitionResult octant sc coord v pv min0 po last =
      ((if po = false then
        [Frame.new (sc.frame.depth + 1) min0
          (octant.compute_slope sc.limits.eye_centre (cell_corner coord c)) pv]
      else []) ++
        (if last = true ∧ ¬v = 0 then
          [Frame.new (sc.frame.depth + 1)
            (octant.compute_slope sc.limits.eye_centre (cell_corner coord c))
            sc.frame.max_slope v]
        else []),
        octant.compute_slope sc.limits.eye_centre (cell_corner coord c)) := by
  unfold specTransitionResult
  have hc : (if v > pv then some octant.opacity_decrease_corner
      else if v < pv then some octant.opacity_increase_corner
      else none) = transitionCorner octant v pv := rfl
  rw [hc, h]
  rfl

/-- C2: on a non-first present cell, one iteration of the row scanner pushes
exactly the frames described by specTransitionResult and updates the running
min slope to the transition slope: at a visibility increase the split slope
goes through the octant's opacity-decrease corner of the current cell, at a
decrease through its opacity-increase corner; Frame (depth + 1,
[running min slope, transition slope], previous visibility) is pushed iff
the previous cell was not fully opaque; and after the last lateral cell,
Frame (depth + 1, [running min slope, frame max slope], current visibility)
is pushed iff that cell is not fully opaque. -/
theorem scan_transition_behaviour {K : Type} (ki : KnowledgeGrid K)
    (args : OctantArgs) (sc : Scan) (idx : Int) (st st' : ScanState K)
    (cell : Cell)
    (hget : args.world.get (scanCoord args.octant sc.depth_idx idx) = some cell)
    (hfirst : st.first_iteration = false)
    (hstep : scanStep ki args sc idx st = .ok st') :
    st'.pushed = st.pushed ++
      (specTransitionResult args.octant sc (scanCoord args.octant sc.depth_idx idx)
        (max (sc.frame.visibility - cell.opacity_total) 0)
        st.previous_visibility st.min_slope st.previous_opaque_b
        (idx == sc.end_lateral_idx)).1 ∧
    st'.min_slope =
      (specTransitionResult args.octant sc (scanCoord args.octant sc.depth_idx idx)
        (max (sc.frame.visibility - cell.opacity_total) 0)
        st.previous_visibility st.min_slope st.previous_opaque_b
        (idx == sc.end_lateral_idx)).2 ∧
    st'.stack =
      (specTransitionResult args.octant sc (scanCoord args.octant sc.depth_idx idx)
        (max (sc.frame.visibility - cell.opacity_total) 0)
        st.previous_visibility st.min_slope st.previous_opaque_b
        (idx == sc.end_lateral_idx)).1.reverse ++ st.stack := by
  unfold scanStep at hstep
  rw [hget] at hstep
  dsimp only [] at hstep
  obtain ⟨hRs, hRp, hRf, hRo, hRv, hRm⟩ :=
    reportCell_preserves ki args (scanCoord args.octant sc.depth_idx idx) cell st
  rcases hp : processTransition args sc (scanCoord args.octant sc.depth_idx idx)
      (max (sc.frame.visibility - cell.opacity_total) 0)
      (reportCell ki args (scanCoord args.octant sc.depth_idx idx) cell st)
    with e | stB <;> rw [hp] at hstep
  · exact absurd hstep (by simp)
  · simp only [Except.ok.injEq] at hstep
    subst hstep
    have hchar := processTransition_ok args sc
      (scanCoord args.octant sc.depth_idx idx)
      (max (sc.frame.visibility - cell.opacity_total) 0)
      (reportCell ki args (scanCoord args.octant sc.depth_idx idx) cell st) stB
      (by rw [hRf]; exact hfirst) hp
    obtain ⟨hFp, hFs, hFm, -⟩ := finishCell_fields sc (idx == sc.end_lateral_idx)
      (max (sc.frame.visibility - cell.opacity_total) 0) stB
    rw [hRv] at hchar
    rcases hc : transitionCorner args.octant
        (max (sc.frame.visibility - cell.opacity_total) 0)
        st.previous_visibility with _ | c <;> rw [hc] at hchar
    · -- no visibility boundary at this cell
      subst hchar
      rw [specTransitionResult_none _ _ _ _ _ _ _ _ hc]
      exact ⟨by rw [hFp, hRp, hRm], by rw [hFm, hRm],
        by rw [hFs, hRs, hRm]; split <;> simp⟩
    · -- a visibility boundary through corner c
      obtain ⟨-, hstB⟩ := hchar
      rw [hRo, hRm] at hstB
      have hBm : stB.min_slope = args.octant.compute_slope sc.limits.eye_centre
          (cell_corner (scanCoord args.octant sc.depth_idx idx) c) := by
        rw [hstB]
      have hBp : stB.pushed = st.pushed ++
          (if st.previous_opaque_b = false then
            [Frame.new (sc.frame.depth + 1) st.min_slope
              (args.octant.compute_slope sc.limits.eye_centre
                (cell_corner (scanCoord args.octant sc.depth_idx idx) c))
              st.previous_visibility]
          else []) := by
        rw [hstB]
        rcases st.previous_opaque_b with _ | _ <;>
          simp [ScanState.push, hRp]
      have hBs : stB.stack =
          (if st.previous_opaque_b = false then
            [Frame.new (sc.frame.depth + 1) st.min_slope
              (args.octant.compute_slope sc.limits.eye_centre
                (cell_corner (scanCoord args.octant sc.depth_idx idx) c))
              st.previous_visibility]
          else []) ++ st.stack := by
        rw [hstB]
        rcases st.previous_opaque_b with _ | _ <;>
          simp [ScanState.push, hRs]
      rw [specTransitionResult_some _ _ _ _ _ _ _ _ _ hc]
      refine ⟨?_, ?_, ?_⟩
      · rw [hFp, hBp, hBm]
        simp
      · rw [hFm, hBm]
      · rw [hFs, hBs, hBm]
        rcases st.previous_opaque_b with _ | _ <;>
          cases h : (idx == sc.end_lateral_idx) <;>
          simp [h] <;> split <;> simp

/-- Witness for C1: the first cell of the depth-1 row of the tiny world. -/
theorem scan_effective_visibility_witness :
    argsTiny.world.get (scanCoord argsTiny.octant scanTiny.depth_idx 0) =
      some ⟨0⟩ ∧
    scanStep kiUnit argsTiny scanTiny 0 stTiny0 = .ok stTiny1 ∧
    (stTiny1.previous_visibility =
      max (scanTiny.frame.visibility - Cell.opacity_total ⟨0⟩) 0 ∧
    (stTiny1.previous_opaque_b = true ↔
      max (scanTiny.frame.visibility - Cell.opacity_total ⟨0⟩) 0 = 0)) :=
  ⟨by with_unfolding_all decide, by with_unfolding_all decide,
    scan_effective_visibility kiUnit argsTiny scanTiny 0 stTiny0 stTiny1 ⟨0⟩
      (by with_unfolding_all decide) (by with_unfolding_all decide)⟩

/-- Witness for C2: the second (last) cell of the depth-1 row of the tiny
world, where the final open region is pushed forward. -/
theorem scan_transition_behaviour_witness :
    argsTiny.world.get (scanCoord argsTiny.octant scanTiny.depth_idx 1) =
      some ⟨0⟩ ∧
    stTiny1.first_iteration = false ∧
    scanStep kiUnit argsTiny scanTiny 1 stTiny1 = .ok stTiny2 ∧
    (stTiny2.pushed = stTiny1.pushed ++
      (specTransitionResult argsTiny.octant scanTiny
        (scanCoord argsTiny.octant scanTiny.depth_idx 1)
        (max (scanTiny.frame.visibility - Cell.opacity_total ⟨0⟩) 0)
        stTiny1.previous_visibility stTiny1.min_slope stTiny1.previous_opaque_b
        ((1 : Int) == scanTiny.end_lateral_idx)).1 ∧
    stTiny2.min_slope =
      (specTransitionResult argsTiny.octant scanTiny
        (scanCoord argsTiny.octant scanTiny.depth_idx 1)
        (max (scanTiny.frame.visibility - Cell.opacity_total ⟨0⟩) 0)
        stTiny1.previous_visibility stTiny1.min_slope stTiny1.previous_opaque_b
        ((1 : Int) == scanTiny.end_lateral_idx)).2 ∧
    stTiny2.stack =
      (specTransitionResult argsTiny.octant scanTiny
        (scanCoord argsTiny.octant scanTiny.depth_idx 1)
        (max (scanTiny.frame.visibility - Cell.opacity_total ⟨0⟩) 0)
        stTiny1.previous_visibility stTiny1.min_slope stTiny1.previous_opaque_b
        ((1 : Int) == scanTiny.end_lateral_idx)).1.reverse ++ stTiny1.stack) :=
  ⟨by with_unfolding_all decide, rfl, by with_unfolding_all decide,
    scan_transition_behaviour kiUnit argsTiny scanTiny 1 stTiny1 stTiny2 ⟨0⟩
      (by with_unfolding_all decide) rfl (by with_unfolding_all decide)⟩

/-- C9: with slopes in the unit interval, Scan construction never errors;
it yields "nothing to scan" exactly when the frame depth exceeds the view
distance, or the row's absolute depth index leaves the grid's depth bounds,
or the rounded lateral start index leaves the grid's lateral bounds; any
constructed Scan has its end lateral index clamped inside the grid's
lateral bounds. -/
theorem scan_new_characterisation (limits : Limits) (frame : Frame)
    (octant : Octant) (distance : Nat)
    (h0 : 0 ≤ frame.min_slope) (h1 : frame.min_slope ≤ 1)
    (h2 : 0 ≤ frame.max_slope) (h3 : frame.max_slope ≤ 1) :
    (∀ e, Scan.new limits frame octant distance ≠ .error e) ∧
    (Scan.new limits frame octant distance = .ok none ↔
      (distance < frame.depth ∨
        scanDepthAbs limits frame octant < limits.depth_min ∨
        scanDepthAbs limits frame octant > limits.depth_max ∨
        scanStartIdx limits frame octant < limits.lateral_min ∨
        scanStartIdx limits frame octant > limits.lateral_max)) ∧
    (∀ sc, Scan.new limits frame octant distance = .ok (some sc) →
      limits.lateral_min ≤ sc.end_lateral_idx ∧
        sc.end_lateral_idx ≤ limits.lateral_max) := by
  unfold Scan.new
  rw [if_neg (not_not_intro ⟨h0, h1, h2, h3⟩)]
  split_ifs with hd hdep hst
  · exact ⟨fun e => by simp, ⟨fun _ => Or.inl hd, fun _ => rfl⟩,
      fun sc h => by simp at h⟩
  · refine ⟨fun e => by simp, ⟨fun _ => ?_, fun _ => rfl⟩,
      fun sc h => by simp at h⟩
    rcases hdep with h | h
    · exact Or.inr (Or.inl h)
    · exact Or.inr (Or.inr (Or.inl h))
  · refine ⟨fun e => by simp, ⟨fun _ => ?_, fun _ => rfl⟩,
      fun sc h => by simp at h⟩
    rcases hst with h | h
    · exact Or.inr (Or.inr (Or.inr (Or.inl h)))
    · exact Or.inr (Or.inr (Or.inr (Or.inr h)))
  · push_neg at hdep hst
    refine ⟨fun e => by simp, ⟨fun h => by simp at h, fun hc => ?_⟩,
      fun sc h => ?_⟩
    · rcases hc with hc | hc | hc | hc | hc
      · exact absurd hc (by omega)
      · exact absurd hc (not_lt.mpr hdep.1)
      · exact absurd hc (not_lt.mpr hdep.2)
      · exact absurd hc (not_lt.mpr hst.1)
      · exact absurd hc (not_lt.mpr hst.2)
    · simp only [Except.ok.injEq, Option.some.injEq] at h
      subst h
      have hlohi : limits.lateral_min ≤ limits.lateral_max :=
        le_trans hst.1 hst.2
      exact ⟨le_min (le_max_right _ _) hlohi, min_le_right _ _⟩

/-- Witness for C9: the unit-interval frame at depth 1 of the tiny world. -/
theorem scan_new_characterisation_witness :
    ((0 : Rat) ≤ (Frame.new 1 0 1 1).min_slope ∧
      (Frame.new 1 0 1 1).min_slope ≤ 1 ∧
      (0 : Rat) ≤ (Frame.new 1 0 1 1).max_slope ∧
      (Frame.new 1 0 1 1).max_slope ≤ 1) ∧
    ((∀ e, Scan.new limitsTiny (Frame.new 1 0 1 1) octES 2 ≠ .error e) ∧
    (Scan.new limitsTiny (Frame.new 1 0 1 1) octES 2 = .ok none ↔
      (2 < (Frame.new 1 0 1 1).depth ∨
        scanDepthAbs limitsTiny (Frame.new 1 0 1 1) octES < limitsTiny.depth_min ∨
        scanDepthAbs limitsTiny (Frame.new 1 0 1 1) octES > limitsTiny.depth_max ∨
        scanStartIdx limitsTiny (Frame.new 1 0 1 1) octES < limitsTiny.lateral_min ∨
        scanStartIdx limitsTiny (Frame.new 1 0 1 1) octES > limitsTiny.lateral_max)) ∧
    (∀ sc, Scan.new limitsTiny (Frame.new 1 0 1 1) octES 2 = .ok (some sc) →
      limitsTiny.lateral_min ≤ sc.end_lateral_idx ∧
        sc.end_lateral_idx ≤ limitsTiny.lateral_max)) :=
  ⟨⟨by with_unfolding_all decide, by with_unfolding_all decide,
      by with_unfolding_all decide, by with_unfolding_all decide⟩,
    scan_new_characterisation limitsTiny (Frame.new 1 0 1 1) octES 2
      (by with_unfolding_all decide) (by with_unfolding_all decide)
      (by with_unfolding_all decide) (by with_unfolding_all decide)⟩

/-- The transition phase changes only the stack, the pushed log and the
running min slope: it pushes at most one frame, at depth one past the
frame's. -/
theorem processTransition_shape {K : Type} (args : OctantArgs) (sc : Scan)
    (coord : V2 Int) (v : Rat) (st st' : ScanState K)
    (h : processTransition args sc coord v st = .ok st') :
    ∃ new : List Frame, st'.stack = new.reverse ++ st.stack ∧
      st'.pushed = st.pushed ++ new ∧ new.length ≤ 1 ∧
      (∀ f ∈ new, f.depth = sc.frame.depth + 1) ∧
      st'.first_iteration = st.first_iteration ∧
      st'.previous_opaque_b = st.previous_opaque_b ∧
      st'.previous_visibility = st.previous_visibility ∧
      st'.metadata = st.metadata ∧ st'.events = st.events ∧ st'.k = st.k := by
  unfold processTransition at h
  by_cases hb : st.first_iteration = true
  · rw [if_pos hb] at h
    simp only [Except.ok.injEq] at h
    subst h
    exact ⟨[], by simp, by simp, by simp, by simp, rfl, rfl, rfl, rfl, rfl, rfl⟩
  · rw [if_neg hb] at h
    rcases hc : transitionCorner args.octant v st.previous_visibility
      with _ | c <;> rw [hc] at h
    · simp only [Except.ok.injEq] at h
      subst h
      exact ⟨[], by simp, by simp, by simp, by simp, rfl, rfl, rfl, rfl, rfl, rfl⟩
    · dsimp only [] at h
      split_ifs at h with hs hpo
      · simp only [Except.ok.injEq] at h
        subst h
        refine ⟨[Frame.new (sc.frame.depth + 1) st.min_slope
          (args.octant.compute_slope sc.limits.eye_centre (cell_corner coord c))
          st.previous_visibility], ?_, ?_, ?_, ?_, ?_, ?_, ?_, ?_, ?_, ?_⟩ <;>
          simp [ScanState.push, Frame.new]
      · simp only [Except.ok.injEq] at h
        subst h
        refine ⟨[], ?_, ?_, ?_, ?_, ?_, ?_, ?_, ?_, ?_, ?_⟩ <;>
          simp [ScanState.push]

/-- One iteration of the row scanner pushes at most two frames, all at depth
one past the frame's, consing them onto the stack and appending them to the
pushed log. -/
theorem scanStep_shape {K : Type} (ki : KnowledgeGrid K) (args : OctantArgs)
    (sc : Scan) (idx : Int) (st st' : ScanState K)
    (h : scanStep ki args sc idx st = .ok st') :
    ∃ new : List Frame, st'.stack = new.reverse ++ st.stack ∧
      st'.pushed = st.pushed ++ new ∧ new.length ≤ 2 ∧
      ∀ f ∈ new, f.depth = sc.frame.depth + 1 := by
  unfold scanStep at h
  rcases hget : args.world.get (scanCoord args.octant sc.depth_idx idx)
    with _ | cell <;> rw [hget] at h <;> dsimp only [] at h
  · simp only [Except.ok.injEq] at h
    subst h
    exact ⟨[], by simp, by simp, by simp, by simp⟩
  · rcases hp : processTransition args sc (scanCoord args.octant sc.depth_idx idx)
        (max (sc.frame.visibility - cell.opacity_total) 0)
        (reportCell ki args (scanCoord args.octant sc.depth_idx idx) cell st)
      with e | stB <;> rw [hp] at h
    · exact absurd h (by simp)
    · simp only [Except.ok.injEq] at h
      subst h
      obtain ⟨hRs, hRp, -, -, -, -⟩ :=
        reportCell_preserves ki args (scanCoord args.octant sc.depth_idx idx)
          cell st
      obtain ⟨newT, hTs, hTp, hTl, hTd, -, -, -, -, -, -⟩ :=
        processTransition_shape args sc (scanCoord args.octant sc.depth_idx idx)
          (max (sc.frame.visibility - cell.opacity_total) 0)
          (reportCell ki args (scanCoord args.octant sc.depth_idx idx) cell st)
          stB hp
      obtain ⟨hFp, hFs, -, -⟩ := finishCell_fields sc (idx == sc.end_lateral_idx)
        (max (sc.frame.visibility - cell.opacity_total) 0) stB
      refine ⟨newT ++
        (if (idx == sc.end_lateral_idx) = true ∧
            ¬max (sc.frame.visibility - cell.opacity_total) 0 = 0 then
          [Frame.new (sc.frame.depth + 1) stB.min_slope sc.frame.max_slope
            (max (sc.frame.visibility - cell.opacity_total) 0)]
        else []), ?_, ?_, ?_, ?_⟩
      · rw [hFs, hTs, hRs]
        split <;> simp
      · rw [hFp, hTp, hRp]
        simp
      · have : newT.length ≤ 1 := hTl
        split <;> simp <;> omega
      · intro f hf
        rcases List.mem_append.mp hf with hf | hf
        · exact hTd f hf
        · rcases hi : ((idx == sc.end_lateral_idx) = true ∧
              ¬max (sc.frame.visibility - cell.opacity_total) 0 = 0) with _
          all_goals
            by_cases hcond : (idx == sc.end_lateral_idx) = true ∧
              ¬max (sc.frame.visibility - cell.opacity_total) 0 = 0
          all_goals simp [hcond] at hf
          all_goals simp [hf, Frame.new]

/-- Driving the row scanner across a list of lateral indices pushes at most
two frames per index, all at depth one past the frame's. -/
theorem scanGo_shape {K : Type} (ki : KnowledgeGrid K) (args : OctantArgs)
    (sc : Scan) (idxs : List Int) (st st' : ScanState K)
    (h : scanGo ki args sc idxs st = .ok st') :
    ∃ new : List Frame, st'.stack = new.reverse ++ st.stack ∧
      st'.pushed = st.pushed ++ new ∧ new.length ≤ 2 * idxs.length ∧
      ∀ f ∈ new, f.depth = sc.frame.depth + 1 := by
  induction idxs generalizing st with
  | nil =>
    simp only [scanGo, Except.ok.injEq] at h
    subst h
    exact ⟨[], by simp, by simp, by simp, by simp⟩
  | cons i rest ih =>
    simp only [scanGo] at h
    rcases hstep : scanStep ki args sc i st with e | st1 <;> rw [hstep] at h
    · exact absurd h (by simp)
    · obtain ⟨n1, h1s, h1p, h1l, h1d⟩ := scanStep_shape ki args sc i st st1 hstep
      obtain ⟨n2, h2s, h2p, h2l, h2d⟩ := ih st1 h
      refine ⟨n1 ++ n2, ?_, ?_, ?_, ?_⟩
      · rw [h2s, h1s]
        simp
      · rw [h2p, h1p]
        simp
      · simp only [List.length_append, List.length_cons]
        omega
      · intro f hf
        rcases List.mem_append.mp hf with hf | hf
        · exact h1d f hf
        · exact h2d f hf

/-- One execution of the row scanner on a Scan pushes at most two frames per
visited lateral index, all at depth one past the scanned frame's depth. -/
theorem scan_shape {K : Type} (ki : KnowledgeGrid K) (args : OctantArgs)
    (sc : Scan) (stack : List Frame) (k : K) (st' : ScanState K)
    (h : scan ki args sc stack k = .ok st') :
    st'.stack = st'.pushed.reverse ++ stack ∧
      st'.pushed.length ≤ 2 * (scanIndices sc.start_lateral_idx
        args.octant.lateral_step (scanLen args.octant sc)).length ∧
      ∀ f ∈ st'.pushed, f.depth = sc.frame.depth + 1 := by
  unfold scan at h
  obtain ⟨new, hs, hp, hl, hd⟩ := scanGo_shape ki args sc _ _ st' h
  simp only [List.nil_append] at hp
  subst hp
  exact ⟨by simpa using hs, hl, hd⟩

/-- C5 counterexample: on the depth-4 row of worldC5 (alternating opacity),
a single execution of the row scanner on one Scan pushes three frames, so
"at most 2" fails. -/
theorem scan_pushes_three_counterexample :
    Scan.new limitsC5 frameC5 octES 5 = .ok (some scanC5) ∧
    (scan kiUnit argsC5 scanC5 [] ()).map (fun st => st.pushed) =
      .ok [Frame.new 5 0 (1/9) 1, Frame.new 5 (3/7) (5/9) 1,
        Frame.new 5 1 1 1] ∧
    (scan kiUnit argsC5 scanC5 [] ()).map (fun st => st.pushed.length) =
      .ok 3 ∧
    ¬(3 : Nat) ≤ 2 := by
  refine ⟨?_, ?_, ?_, by decide⟩ <;> with_unfolding_all decide

/-- C5 amended: a single row scan may push more than two frames — one per
closed visible sub-region plus a final one — bounded by twice the number of
visited lateral indices. -/
theorem scan_push_bound {K : Type} (ki : KnowledgeGrid K) (args : OctantArgs)
    (sc : Scan) (stack : List Frame) (k : K) (st' : ScanState K)
    (h : scan ki args sc stack k = .ok st') :
    st'.pushed.length ≤ 2 * (scanIndices sc.start_lateral_idx
      args.octant.lateral_step (scanLen args.octant sc)).length :=
  (scan_shape ki args sc stack k st' h).2.1

/-- Witness for C5 amended: the two-cell row of the tiny world. -/
theorem scan_push_bound_witness :
    scan kiUnit argsTiny scanTiny [] () = .ok stTiny2 ∧
    stTiny2.pushed.length ≤ 2 * (scanIndices scanTiny.start_lateral_idx
      argsTiny.octant.lateral_step (scanLen argsTiny.octant scanTiny)).length :=
  ⟨by with_unfolding_all decide,
    scan_push_bound kiUnit argsTiny scanTiny [] () stTiny2
      (by with_unfolding_all decide)⟩

/-- C4 counterexample: a Frame with min_slope 1 and max_slope 0 (each inside
the unit interval) reaches Scan construction without any assertion failure
and is scanned silently over zero cells; moreover the row scanner, handed a
well-formed frame, pushes a Frame whose min_slope (9/10) exceeds its
max_slope (5/7). -/
theorem scan_min_gt_max_counterexample :
    (Frame.new 1 1 0 1).max_slope < (Frame.new 1 1 0 1).min_slope ∧
    Scan.new limitsC4 (Frame.new 1 1 0 1) octES 5 = .ok (some scInvC4) ∧
    scanLen octES scInvC4 = 0 ∧
    scan kiUnit argsC4 scInvC4 [] () = .ok
      { stack := []
        first_iteration := true
        previous_opaque_b := false
        previous_visibility := -1
        min_slope := 1
        metadata := ObservationMetadata.empty
        k := ()
        events := []
        pushed := [] } ∧
    (scanC4.frame.min_slope ≤ scanC4.frame.max_slope) ∧
    (scan kiUnit argsC4 scanC4 [] ()).map (fun st => st.pushed) =
      .ok [Frame.new 4 (9/10) (5/7) 1] ∧
    (Frame.new 4 (9/10) (5/7) 1).max_slope <
      (Frame.new 4 (9/10) (5/7) 1).min_slope := by
  refine ⟨?_, ?_, ?_, ?_, ?_, ?_, ?_⟩ <;> with_unfolding_all decide

/-- C4 amended: a Frame whose slopes each lie in the unit interval but with
min_slope above max_slope triggers no assertion when it reaches Scan
construction (the asserts check only the per-slope ranges), and the row
scanner can push a Frame whose min_slope exceeds its max_slope. -/
theorem scan_min_gt_max_amended (limits : Limits) (frame : Frame)
    (octant : Octant) (distance : Nat)
    (h0 : 0 ≤ frame.min_slope) (h1 : frame.min_slope ≤ 1)
    (h2 : 0 ≤ frame.max_slope) (h3 : frame.max_slope ≤ 1)
    (hinv : frame.max_slope < frame.min_slope) :
    (∀ e, Scan.new limits frame octant distance ≠ .error e) ∧
    (scan kiUnit argsC4 scanC4 [] ()).map (fun st => st.pushed) =
      .ok [Frame.new 4 (9/10) (5/7) 1] := by
  constructor
  · unfold Scan.new
    rw [if_neg (not_not_intro ⟨h0, h1, h2, h3⟩)]
    split_ifs <;> simp
  · with_unfolding_all decide

/-- Witness for C4 amended: the inverted depth-1 frame over worldC4. -/
theorem scan_min_gt_max_amended_witness :
    ((0 : Rat) ≤ (Frame.new 1 1 0 1).min_slope ∧
      (Frame.new 1 1 0 1).min_slope ≤ 1 ∧
      (0 : Rat) ≤ (Frame.new 1 1 0 1).max_slope ∧
      (Frame.new 1 1 0 1).max_slope ≤ 1 ∧
      (Frame.new 1 1 0 1).max_slope < (Frame.new 1 1 0 1).min_slope) ∧
    ((∀ e, Scan.new limitsC4 (Frame.new 1 1 0 1) octES 5 ≠ .error e) ∧
    (scan kiUnit argsC4 scanC4 [] ()).map (fun st => st.pushed) =
      .ok [Frame.new 4 (9/10) (5/7) 1]) :=
  ⟨⟨by with_unfolding_all decide, by with_unfolding_all decide,
      by with_unfolding_all decide, by with_unfolding_all decide,
      by with_unfolding_all decide⟩,
    scan_min_gt_max_amended limitsC4 (Frame.new 1 1 0 1) octES 5
      (by with_unfolding_all decide) (by with_unfolding_all decide)
      (by with_unfolding_all decide) (by with_unfolding_all decide)
      (by with_unfolding_all decide)⟩

/-- The report phase appends exactly one update event when the squared
distance from the eye is strictly below the cutoff and the cell is present,
and no event otherwise. -/
theorem reportCell_events {K : Type} (ki : KnowledgeGrid K)
    (args : OctantArgs) (coord : V2 Int) (cell : Cell) (st : ScanState K) :
    (reportCell ki args coord cell st).events = st.events ++
      (if (coord.x - args.eye.x) * (coord.x - args.eye.x) +
          (coord.y - args.eye.y) * (coord.y - args.eye.y) <
          args.distance_squared then
        [Event.cellUpdate coord cell (ki.update_cell st.k coord cell).2]
      else []) := by
  unfold reportCell
  dsimp only []
  split <;> simp

/-- The reported coordinates of one scan iteration: the visited coordinate
exactly when the grid has data there and it lies strictly inside the
distance cutoff. -/
theorem scanStep_events {K : Type} (ki : KnowledgeGrid K) (args : OctantArgs)
    (sc : Scan) (idx : Int) (st st' : ScanState K)
    (h : scanStep ki args sc idx st = .ok st') :
    st'.events.filterMap Event.coord? =
      st.events.filterMap Event.coord? ++
      (match args.world.get (scanCoord args.octant sc.depth_idx idx) with
       | none => []
       | some _ =>
         if ((scanCoord args.octant sc.depth_idx idx).x - args.eye.x) *
              ((scanCoord args.octant sc.depth_idx idx).x - args.eye.x) +
            ((scanCoord args.octant sc.depth_idx idx).y - args.eye.y) *
              ((scanCoord args.octant sc.depth_idx idx).y - args.eye.y) <
            args.distance_squared then
           [scanCoord args.octant sc.depth_idx idx]
         else []) := by
  unfold scanStep at h
  rcases hget : args.world.get (scanCoord args.octant sc.depth_idx idx)
    with _ | cell <;> rw [hget] at h <;> dsimp only [] at h
  · simp only [Except.ok.injEq] at h
    subst h
    simp
  · rcases hp : processTransition args sc (scanCoord args.octant sc.depth_idx idx)
        (max (sc.frame.visibility - cell.opacity_total) 0)
        (reportCell ki args (scanCoord args.octant sc.depth_idx idx) cell st)
      with e | stB <;> rw [hp] at h
    · exact absurd h (by simp)
    · simp only [Except.ok.injEq] at h
      subst h
      obtain ⟨-, -, -, -, -, -, -, -, -, hTe, -⟩ :=
        processTransition_shape args sc (scanCoord args.octant sc.depth_idx idx)
          (max (sc.frame.visibility - cell.opacity_total) 0)
          (reportCell ki args (scanCoord args.octant sc.depth_idx idx) cell st)
          stB hp
      obtain ⟨-, -, -, -, -, -, -, hFe, -⟩ :=
        finishCell_fields sc (idx == sc.end_lateral_idx)
          (max (sc.frame.visibility - cell.opacity_total) 0) stB
      rw [hFe, hTe, reportCell_events]
      split <;> simp [Event.coord?]

/-- The reported coordinates of a whole run of the row scanner across a
list of lateral indices. -/
theorem scanGo_events {K : Type} (ki : KnowledgeGrid K) (args : OctantArgs)
    (sc : Scan) (idxs : List Int) (st st' : ScanState K)
    (h : scanGo ki args sc idxs st = .ok st') :
    st'.events.filterMap Event.coord? =
      st.events.filterMap Event.coord? ++
      idxs.filterMap (fun idx =>
        match args.world.get (scanCoord args.octant sc.depth_idx idx) with
        | none => none
        | some _ =>
          if ((scanCoord args.octant sc.depth_idx idx).x - args.eye.x) *
               ((scanCoord args.octant sc.depth_idx idx).x - args.eye.x) +
             ((scanCoord args.octant sc.depth_idx idx).y - args.eye.y) *
               ((scanCoord args.octant sc.depth_idx idx).y - args.eye.y) <
             args.distance_squared then
            some (scanCoord args.octant sc.depth_idx idx)
          else none) := by
  induction idxs generalizing st with
  | nil =>
    simp only [scanGo, Except.ok.injEq] at h
    subst h
    simp
  | cons i rest ih =>
    simp only [scanGo] at h
    rcases hstep : scanStep ki args sc i st with e | st1 <;> rw [hstep] at h
    · exact absurd h (by simp)
    · rw [ih st1 h, scanStep_events ki args sc i st st1 hstep,
        List.filterMap_cons]
      rcases hget : args.world.get (scanCoord args.octant sc.depth_idx i)
        with _ | cell <;> simp only []
      · simp
      · split <;> simp

/-- The transition phase reads and writes only the loop-local scan state, so
two states agreeing on it evolve identically regardless of the knowledge
state, the metadata or the event log, for any octant-equal arguments. -/
theorem processTransition_cutoff {K : Type} (args args2 : OctantArgs)
    (sc : Scan) (coord : V2 Int) (v : Rat) (st1 st2 st1' : ScanState K)
    (hoct : args2.octant = args.octant)
    (hstack : st2.stack = st1.stack)
    (hfirst : st2.first_iteration = st1.first_iteration)
    (hopq : st2.previous_opaque_b = st1.previous_opaque_b)
    (hvis : st2.previous_visibility = st1.previous_visibility)
    (hmin : st2.min_slope = st1.min_slope)
    (hpush : st2.pushed = st1.pushed)
    (h : processTransition args sc coord v st1 = .ok st1') :
    ∃ st2', processTransition args2 sc coord v st2 = .ok st2' ∧
      st2'.stack = st1'.stack ∧ st2'.first_iteration = st1'.first_iteration ∧
      st2'.previous_opaque_b = st1'.previous_opaque_b ∧
      st2'.previous_visibility = st1'.previous_visibility ∧
      st2'.min_slope = st1'.min_slope ∧ st2'.pushed = st1'.pushed := by
  unfold processTransition at h ⊢
  rw [hoct, hfirst, hvis]
  by_cases hf : st1.first_iteration = true
  · rw [if_pos hf] at h ⊢
    simp only [Except.ok.injEq] at h
    subst h
    exact ⟨st2, rfl, hstack, hfirst, hopq, hvis, hmin, hpush⟩
  · rw [if_neg hf] at h ⊢
    rcases hc : transitionCorner args.octant v st1.previous_visibility
      with _ | c <;> rw [hc] at h
    · simp only [Except.ok.injEq] at h
      subst h
      exact ⟨st2, rfl, hstack, hfirst, hopq, hvis, hmin, hpush⟩
    · dsimp only [] at h ⊢
      split_ifs at h with hs hpo
      · simp only [Except.ok.injEq] at h
        subst h
        rw [if_pos hs, if_pos (show st2.previous_opaque_b = false by
          rw [hopq]; exact hpo)]
        refine ⟨_, rfl, ?_, ?_, ?_, ?_, ?_, ?_⟩ <;>
          simp [ScanState.push, hstack, hfirst, hopq, hvis, hmin, hpush]
      · simp only [Except.ok.injEq] at h
        subst h
        rw [if_pos hs, if_neg (show ¬st2.previous_opaque_b = false by
          rw [hopq]; exact hpo)]
        refine ⟨_, rfl, ?_, ?_, ?_, ?_, ?_, ?_⟩ <;>
          simp [hstack, hfirst, hopq, hvis, hmin, hpush]

/-- One scan iteration evolves the loop-local state independently of the
distance cutoff: changing distance_squared changes only reporting. -/
theorem scanStep_cutoff {K : Type} (ki : KnowledgeGrid K) (args : OctantArgs)
    (sc : Scan) (idx : Int) (q : Int) (st1 st2 st1' : ScanState K)
    (hstack : st2.stack = st1.stack)
    (hfirst : st2.first_iteration = st1.first_iteration)
    (hopq : st2.previous_opaque_b = st1.previous_opaque_b)
    (hvis : st2.previous_visibility = st1.previous_visibility)
    (hmin : st2.min_slope = st1.min_slope)
    (hpush : st2.pushed = st1.pushed)
    (h : scanStep ki args sc idx st1 = .ok st1') :
    ∃ st2', scanStep ki { args with distance_squared := q } sc idx st2 =
        .ok st2' ∧
      st2'.stack = st1'.stack ∧ st2'.first_iteration = st1'.first_iteration ∧
      st2'.previous_opaque_b = st1'.previous_opaque_b ∧
      st2'.previous_visibility = st1'.previous_visibility ∧
      st2'.min_slope = st1'.min_slope ∧ st2'.pushed = st1'.pushed := by
  unfold scanStep at h ⊢
  dsimp only [] at h ⊢
  rcases hget : args.world.get (scanCoord args.octant sc.depth_idx idx)
    with _ | cell <;> rw [hget] at h <;> dsimp only [] at h ⊢
  · simp only [Except.ok.injEq] at h
    subst h
    exact ⟨st2, rfl, hstack, hfirst, hopq, hvis, hmin, hpush⟩
  · rcases hp : processTransition args sc (scanCoord args.octant sc.depth_idx idx)
        (max (sc.frame.visibility - cell.opacity_total) 0)
        (reportCell ki args (scanCoord args.octant sc.depth_idx idx) cell st1)
      with e | stB1 <;> rw [hp] at h
    · exact absurd h (by simp)
    · simp only [Except.ok.injEq] at h
      subst h
      obtain ⟨hR1s, hR1p, hR1f, hR1o, hR1v, hR1m⟩ :=
        reportCell_preserves ki args (scanCoord args.octant sc.depth_idx idx)
          cell st1
      obtain ⟨hR2s, hR2p, hR2f, hR2o, hR2v, hR2m⟩ :=
        reportCell_preserves ki { args with distance_squared := q }
          (scanCoord args.octant sc.depth_idx idx) cell st2
      obtain ⟨stB2, hp2, hBs, hBf, hBo, hBv, hBm, hBp⟩ :=
        processTransition_cutoff args { args with distance_squared := q } sc
          (scanCoord args.octant sc.depth_idx idx)
          (max (sc.frame.visibility - cell.opacity_total) 0)
          (reportCell ki args (scanCoord args.octant sc.depth_idx idx) cell st1)
          (reportCell ki { args with distance_squared := q }
            (scanCoord args.octant sc.depth_idx idx) cell st2)
          stB1 rfl
          (by rw [hR1s, hR2s, hstack]) (by rw [hR1f, hR2f, hfirst])
          (by rw [hR1o, hR2o, hopq]) (by rw [hR1v, hR2v, hvis])
          (by rw [hR1m, hR2m, hmin]) (by rw [hR1p, hR2p, hpush]) hp
      rw [hp2]
      obtain ⟨hF1p, hF1s, hF1m, hF1v, hF1o, hF1f, -, -, -⟩ :=
        finishCell_fields sc (idx == sc.end_lateral_idx)
          (max (sc.frame.visibility - cell.opacity_total) 0) stB1
      obtain ⟨hF2p, hF2s, hF2m, hF2v, hF2o, hF2f, -, -, -⟩ :=
        finishCell_fields sc (idx == sc.end_lateral_idx)
          (max (sc.frame.visibility - cell.opacity_total) 0) stB2
      refine ⟨_, rfl, ?_, ?_, ?_, ?_, ?_, ?_⟩
      · rw [hF1s, hF2s, hBs, hBm]
      · rw [hF1f, hF2f]
      · rw [hF1o, hF2o]
      · rw [hF1v, hF2v]
      · rw [hF1m, hF2m, hBm]
      · rw [hF1p, hF2p, hBp, hBm]

/-- Driving the row scanner across the same indices with a different
distance cutoff yields the same loop-local state. -/
theorem scanGo_cutoff {K : Type} (ki : KnowledgeGrid K) (args : OctantArgs)
    (sc : Scan) (idxs : List Int) (q : Int) (st1 st2 st1' : ScanState K)
    (hstack : st2.stack = st1.stack)
    (hfirst : st2.first_iteration = st1.first_iteration)
    (hopq : st2.previous_opaque_b = st1.previous_opaque_b)
    (hvis : st2.previous_visibility = st1.previous_visibility)
    (hmin : st2.min_slope = st1.min_slope)
    (hpush : st2.pushed = st1.pushed)
    (h : scanGo ki args sc idxs st1 = .ok st1') :
    ∃ st2', scanGo ki { args with distance_squared := q } sc idxs st2 =
        .ok st2' ∧
      st2'.stack = st1'.stack ∧ st2'.pushed = st1'.pushed := by
  induction idxs generalizing st1 st2 with
  | nil =>
    simp only [scanGo, Except.ok.injEq] at h
    subst h
    exact ⟨st2, rfl, hstack, hpush⟩
  | cons i rest ih =>
    simp only [scanGo] at h ⊢
    rcases hstep : scanStep ki args sc i st1 with e | stA1 <;> rw [hstep] at h
    · exact absurd h (by simp)
    · obtain ⟨stA2, hstep2, hAs, hAf, hAo, hAv, hAm, hAp⟩ :=
        scanStep_cutoff ki args sc i q st1 st2 stA1 hstack hfirst hopq hvis
          hmin hpush hstep
      rw [hstep2]
      exact ih stA1 stA2 hAs hAf hAo hAv hAm hAp h

/-- C3: for one execution of the row scanner, the coordinates reported to
the knowledge sink's update_cell are exactly the visited cells for which the
grid returns data and whose squared euclidean distance from the eye's cell
is strictly below the squared view distance; and changing the distance
cutoff changes only the reporting — the resulting stack and pushed frames
(the propagation of visibility) are unchanged. -/
theorem scan_reports_iff_within_distance {K : Type} (ki : KnowledgeGrid K)
    (args : OctantArgs) (sc : Scan) (stack : List Frame) (k : K)
    (out : ScanState K) (q : Int)
    (h : scan ki args sc stack k = .ok out) :
    out.events.filterMap Event.coord? =
      (scanIndices sc.start_lateral_idx args.octant.lateral_step
        (scanLen args.octant sc)).filterMap (fun idx =>
        match args.world.get (scanCoord args.octant sc.depth_idx idx) with
        | none => none
        | some _ =>
          if ((scanCoord args.octant sc.depth_idx idx).x - args.eye.x) *
               ((scanCoord args.octant sc.depth_idx idx).x - args.eye.x) +
             ((scanCoord args.octant sc.depth_idx idx).y - args.eye.y) *
               ((scanCoord args.octant sc.depth_idx idx).y - args.eye.y) <
             args.distance_squared then
            some (scanCoord args.octant sc.depth_idx idx)
          else none) ∧
    ∃ out₂, scan ki { args with distance_squared := q } sc stack k =
        .ok out₂ ∧
      out₂.stack = out.stack ∧ out₂.pushed = out.pushed := by
  constructor
  · have := scanGo_events ki args sc _ _ out h
    simpa using this
  · exact scanGo_cutoff ki args sc _ q _ _ out rfl rfl rfl rfl rfl rfl h

/-- Witness for C3: the depth-4 row of worldC5 at view distance 5, where
cells (4,3) and (4,4) lie inside the scan window but at squared distance 25
and 32, beyond the cutoff of 25. -/
theorem scan_reports_iff_within_distance_witness :
    scan kiUnit argsC5 scanC5 [] () = .ok
      (match scan kiUnit argsC5 scanC5 [] () with
       | .ok st => st
       | .error _ => stTiny0) ∧
    ((match scan kiUnit argsC5 scanC5 [] () with
       | .ok st => st
       | .error _ => stTiny0).events.filterMap Event.coord? =
      [⟨4, 0⟩, ⟨4, 1⟩, ⟨4, 2⟩]) := by
  constructor
  · with_unfolding_all decide
  · have h := scan_reports_iff_within_distance kiUnit argsC5 scanC5 [] ()
      (match scan kiUnit argsC5 scanC5 [] () with
       | .ok st => st
       | .error _ => stTiny0) 0 (by with_unfolding_all decide)
    rw [h.1]
    with_unfolding_all decide

/-- Follows the spec's words (section 4.3): the 8 octants in fixed compass
order, starting at -PI radians and moving anticlockwise. -/
def octantOrder : List (CardinalDirection × CardinalDirection) :=
  [(.West, .South), (.South, .West), (.South, .East), (.East, .South),
    (.East, .North), (.North, .East), (.North, .West), (.West, .North)]

/-- Follows the spec's words (section 4.3): one octant pass — initialise the
frame stack with the single seed Frame (depth 1, min slope 0, max slope 1,
visibility 1) and drive it to exhaustion. -/
def observeSpecOctant {K : Type} (ki : KnowledgeGrid K)
    (world : SpatialHashTable) (eye : V2 Int) (distance fuel : Nat)
    (octant : Octant) (k : K) : Option (Except PanicKind (OctRun K)) :=
  runStack ki (OctantArgs.new octant world eye distance 0 1)
    (Limits.new eye world octant) fuel [Frame.new 1 0 1 1]
    { k := k
      metadata := ObservationMetadata.empty
      events := []
      pushed := [Frame.new 1 0 1 1] }

/-- Follows the spec's words (section 4.3): fold the octant passes in order,
merging metadata with bitwise OR. -/
def observeSpecGo {K : Type} (ki : KnowledgeGrid K) (world : SpatialHashTable)
    (eye : V2 Int) (distance fuel : Nat) :
    List Octant → OctRun K → Option (Except PanicKind (OctRun K))
  | [], acc => some (.ok acc)
  | octant :: rest, acc =>
    match observeSpecOctant ki world eye distance fuel octant acc.k with
    | none => none
    | some (.error e) => some (.error e)
    | some (.ok r) =>
      observeSpecGo ki world eye distance fuel rest
        { k := r.k
          metadata := acc.metadata.or r.metadata
          events := acc.events ++ r.events
          pushed := acc.pushed ++ r.pushed }

/-- Follows the spec's words (section 4.3): record the timestamp into the
knowledge sink first; directly report the eye's own cell if present; then
run the 8 fixed octants in compass order, each seeded with Frame (1, 0.0,
1.0, 1.0), accumulating metadata by bitwise OR. -/
def observeSpec {K : Type} (ki : KnowledgeGrid K) (eye : V2 Int)
    (world : SpatialHashTable) (distance time fuel : Nat) (k : K) :
    Option (Except PanicKind (OctRun K)) :=
  let k := ki.set_time k time
  let start : OctRun K :=
    match world.get eye with
    | some eye_cell =>
      let km := ki.update_cell k eye eye_cell
      { k := km.1
        metadata := km.2
        events := [Event.timeSet time, Event.cellUpdate eye eye_cell km.2]
        pushed := [] }
    | none =>
      { k := k
        metadata := ObservationMetadata.empty
        events := [Event.timeSet time]
        pushed := [] }
  observeSpecGo ki world eye distance fuel
    (octantOrder.filterMap (fun p => Octant.new? p.1 p.2)) start

/-- Bitwise OR of a list of event metadata values. -/
def metaFold (l : List Event) : ObservationMetadata :=
  l.foldl (fun acc e => acc.or e.meta) ObservationMetadata.empty

/-- A tail of knowledge-sink events produced by octant scans: update events
only, each for a coordinate where the grid has the recorded cell. -/
def UpdateTail (world : SpatialHashTable) (l : List Event) : Prop :=
  ∀ e ∈ l, ∃ coord cell m, e = Event.cellUpdate coord cell m ∧
    world.get coord = some cell

/-- Metadata OR is associative with empty as identity. -/
theorem or_empty_or_assoc :
    (∀ m : ObservationMetadata, m.or ObservationMetadata.empty = m) ∧
    (∀ m : ObservationMetadata, ObservationMetadata.empty.or m = m) ∧
    (∀ a b c : ObservationMetadata, (a.or b).or c = a.or (b.or c)) := by
  refine ⟨fun m => ?_, fun m => ?_, fun a b c => ?_⟩ <;>
    simp [ObservationMetadata.or, ObservationMetadata.empty, Bool.or_assoc]

/-- Folding OR from a seed splits off the seed. -/
theorem foldl_or_shift (l : List Event) (x : ObservationMetadata) :
    l.foldl (fun acc e => acc.or e.meta) x = x.or (metaFold l) := by
  induction l generalizing x with
  | nil => simp [metaFold, or_empty_or_assoc.1]
  | cons e rest ih =>
    simp only [List.foldl_cons, metaFold]
    rw [ih, ih (ObservationMetadata.empty.or e.meta),
      or_empty_or_assoc.2.1, or_empty_or_assoc.2.2]

/-- metaFold distributes over list append. -/
theorem metaFold_append (a b : List Event) :
    metaFold (a ++ b) = (metaFold a).or (metaFold b) := by
  unfold metaFold
  rw [List.foldl_append, foldl_or_shift]
  rfl

/-- One scan iteration appends a (possibly empty) tail of well-formed
update events and ORs the tail's metadata into the accumulator. -/
theorem scanStep_trace {K : Type} (ki : KnowledgeGrid K) (args : OctantArgs)
    (sc : Scan) (idx : Int) (st st' : ScanState K)
    (h : scanStep ki args sc idx st = .ok st') :
    ∃ tail, st'.events = st.events ++ tail ∧ UpdateTail args.world tail ∧
      st'.metadata = st.metadata.or (metaFold tail) := by
  unfold scanStep at h
  rcases hget : args.world.get (scanCoord args.octant sc.depth_idx idx)
    with _ | cell <;> rw [hget] at h <;> dsimp only [] at h
  · simp only [Except.ok.injEq] at h
    subst h
    exact ⟨[], by simp, by intro e he; simp at he,
      by simp [metaFold, or_empty_or_assoc.1]⟩
  · rcases hp : processTransition args sc (scanCoord args.octant sc.depth_idx idx)
        (max (sc.frame.visibility - cell.opacity_total) 0)
        (reportCell ki args (scanCoord args.octant sc.depth_idx idx) cell st)
      with e | stB <;> rw [hp] at h
    · exact absurd h (by simp)
    · simp only [Except.ok.injEq] at h
      subst h
      obtain ⟨-, -, -, -, -, -, -, -, hTm, hTe, -⟩ :=
        processTransition_shape args sc (scanCoord args.octant sc.depth_idx idx)
          (max (sc.frame.visibility - cell.opacity_total) 0)
          (reportCell ki args (scanCoord args.octant sc.depth_idx idx) cell st)
          stB hp
      obtain ⟨-, -, -, -, -, -, hFm, hFe, -⟩ :=
        finishCell_fields sc (idx == sc.end_lateral_idx)
          (max (sc.frame.visibility - cell.opacity_total) 0) stB
      rw [hFe, hTe, hFm, hTm, reportCell_events]
      unfold reportCell
      dsimp only []
      split
      · refine ⟨[Event.cellUpdate (scanCoord args.octant sc.depth_idx idx) cell
          (ki.update_cell st.k (scanCoord args.octant sc.depth_idx idx)
            cell).2], rfl, ?_, ?_⟩
        · intro e he
          simp only [List.mem_singleton] at he
          exact ⟨_, _, _, he, hget⟩
        · simp [metaFold, Event.meta, or_empty_or_assoc.2.1]
      · exact ⟨[], by simp, by intro e he; simp at he,
          by simp [metaFold, or_empty_or_assoc.1]⟩

/-- A scan run across a list of indices appends a tail of well-formed
update events and ORs its metadata in. -/
theorem scanGo_trace {K : Type} (ki : KnowledgeGrid K) (args : OctantArgs)
    (sc : Scan) (idxs : List Int) (st st' : ScanState K)
    (h : scanGo ki args sc idxs st = .ok st') :
    ∃ tail, st'.events = st.events ++ tail ∧ UpdateTail args.world tail ∧
      st'.metadata = st.metadata.or (metaFold tail) := by
  induction idxs generalizing st with
  | nil =>
    simp only [scanGo, Except.ok.injEq] at h
    subst h
    exact ⟨[], by simp, by intro e he; simp at he,
      by simp [metaFold, or_empty_or_assoc.1]⟩
  | cons i rest ih =>
    simp only [scanGo] at h
    rcases hstep : scanStep ki args sc i st with e | st1 <;> rw [hstep] at h
    · exact absurd h (by simp)
    · obtain ⟨t1, h1e, h1u, h1m⟩ := scanStep_trace ki args sc i st st1 hstep
      obtain ⟨t2, h2e, h2u, h2m⟩ := ih st1 h
      refine ⟨t1 ++ t2, ?_, ?_, ?_⟩
      · rw [h2e, h1e, List.append_assoc]
      · intro e he
        rcases List.mem_append.mp he with he | he
        · exact h1u e he
        · exact h2u e he
      · rw [h2m, h1m, metaFold_append, or_empty_or_assoc.2.2]

/-- The pop loop appends a tail of well-formed update events and ORs its
metadata into the accumulator. -/
theorem runStack_trace {K : Type} (ki : KnowledgeGrid K) (args : OctantArgs)
    (limits : Limits) (fuel : Nat) (stack : List Frame) (acc : OctRun K)
    (r : OctRun K)
    (h : runStack ki args limits fuel stack acc = some (.ok r)) :
    ∃ tail, r.events = acc.events ++ tail ∧ UpdateTail args.world tail ∧
      r.metadata = acc.metadata.or (metaFold tail) := by
  induction fuel generalizing stack acc with
  | zero =>
    cases stack with
    | nil =>
      simp only [runStack, Option.some.injEq, Except.ok.injEq] at h
      subst h
      exact ⟨[], by simp, by intro e he; simp at he,
        by simp [metaFold, or_empty_or_assoc.1]⟩
    | cons f rest => simp [runStack] at h
  | succ n ih =>
    cases stack with
    | nil =>
      simp only [runStack, Option.some.injEq, Except.ok.injEq] at h
      subst h
      exact ⟨[], by simp, by intro e he; simp at he,
        by simp [metaFold, or_empty_or_assoc.1]⟩
    | cons f rest =>
      simp only [runStack] at h
      rcases hn : Scan.new limits f args.octant args.distance
        with e | osc <;> rw [hn] at h
      · simp at h
      · rcases osc with _ | sc
        · exact ih rest acc h
        · dsimp only [] at h
          rcases hs : scan ki args sc rest acc.k with e | st <;> rw [hs] at h
          · simp at h
          · obtain ⟨t1, h1e, h1u, h1m⟩ := scanGo_trace ki args sc _ _ st hs
            obtain ⟨t2, h2e, h2u, h2m⟩ := ih st.stack _ h
            simp only [List.nil_append] at h1e
            refine ⟨t1 ++ t2, ?_, ?_, ?_⟩
            · rw [h2e]
              dsimp only []
              rw [h1e, List.append_assoc]
            · intro e he
              rcases List.mem_append.mp he with he | he
              · exact h1u e he
              · exact h2u e he
            · rw [h2m]
              dsimp only []
              rw [h1m, or_empty_or_assoc.2.1, metaFold_append,
                or_empty_or_assoc.2.2]

/-- The octant loop appends a tail of well-formed update events and ORs its
metadata into the accumulator. -/
theorem runOctants_trace {K : Type} (ki : KnowledgeGrid K)
    (world : SpatialHashTable) (eye : V2 Int) (distance fuel : Nat)
    (octs : List Octant) (acc r : OctRun K)
    (h : runOctants ki world eye distance fuel octs acc = some (.ok r)) :
    ∃ tail, r.events = acc.events ++ tail ∧ UpdateTail world tail ∧
      r.metadata = acc.metadata.or (metaFold tail) := by
  induction octs generalizing acc with
  | nil =>
    simp only [runOctants, Option.some.injEq, Except.ok.injEq] at h
    subst h
    exact ⟨[], by simp, by intro e he; simp at he,
      by simp [metaFold, or_empty_or_assoc.1]⟩
  | cons octant rest ih =>
    simp only [runOctants] at h
    rcases hd : detect_visible_area_octant ki
        (OctantArgs.new octant world eye distance 0 1) fuel acc.k
      with _ | er <;> rw [hd] at h
    · simp at h
    · rcases er with e | r0
      · simp at h
      · dsimp only [] at h
        obtain ⟨t1, h1e, h1u, h1m⟩ := runStack_trace ki
          (OctantArgs.new octant world eye distance 0 1)
          (Limits.new eye world octant) fuel [Frame.new 1 0 1 1] _ r0 hd
        obtain ⟨t2, h2e, h2u, h2m⟩ := ih _ h
        simp only [List.nil_append] at h1e
        refine ⟨t1 ++ t2, ?_, ?_, ?_⟩
        · rw [h2e]
          dsimp only []
          rw [h1e, List.append_assoc]
        · intro e he
          rcases List.mem_append.mp he with he | he
          · exact h1u e he
          · exact h2u e he
        · rw [h2m]
          dsimp only []
          rw [h1m, or_empty_or_assoc.2.1, metaFold_append,
            or_empty_or_assoc.2.2]

/-- The octant for loop of observe equals the spec-shaped octant fold: each
octant pass is seeded with the single Frame (1, 0, 1, 1). -/
theorem runOctants_eq_specGo {K : Type} (ki : KnowledgeGrid K)
    (world : SpatialHashTable) (eye : V2 Int) (distance fuel : Nat) :
    ∀ (octs : List Octant) (acc : OctRun K),
      runOctants ki world eye distance fuel octs acc =
        observeSpecGo ki world eye distance fuel octs acc
  | [], _ => rfl
  | octant :: rest, acc => by
    simp only [runOctants, observeSpecGo]
    have hdet : detect_visible_area_octant ki
        (OctantArgs.new octant world eye distance 0 1) fuel acc.k =
        observeSpecOctant ki world eye distance fuel octant acc.k := rfl
    rw [hdet]
    cases h : observeSpecOctant ki world eye distance fuel octant acc.k with
    | none => rfl
    | some er =>
      cases er with
      | error e => rfl
      | ok r => exact runOctants_eq_specGo ki world eye distance fuel rest _

/-- C7: observe equals the spec-shaped orchestration — set_time first, the
eye's own cell reported directly iff the grid has data there, then the 8
octants in fixed compass order each seeded with Frame (1, 0.0, 1.0, 1.0) —
and on a completed run the returned metadata is the bitwise-OR fold of all
metadata produced, set_time is called exactly once (first), and an eye
outside the grid is never reported. -/
theorem observe_structure {K : Type} (ki : KnowledgeGrid K) (eye : V2 Int)
    (world : SpatialHashTable) (distance time fuel : Nat) (k : K) :
    observe ki ShadowcastEnv.new eye world distance time fuel k =
      observeSpec ki eye world distance time fuel k ∧
    (∀ r, observe ki ShadowcastEnv.new eye world distance time fuel k =
        some (.ok r) →
      r.metadata = metaFold r.events ∧
      r.events.take 1 = [Event.timeSet time] ∧
      (∀ t', Event.timeSet t' ∈ r.events.drop 1 → False) ∧
      (∀ c, world.get eye = some c →
        ∃ m rest, r.events =
          Event.timeSet time :: Event.cellUpdate eye c m :: rest) ∧
      (world.get eye = none →
        ∀ c m, Event.cellUpdate eye c m ∉ r.events)) := by
  constructor
  · unfold observe observeSpec
    rw [runOctants_eq_specGo]
    rfl
  · intro r h
    unfold observe at h
    rcases hg : world.get eye with _ | c <;> rw [hg] at h <;>
      dsimp only [] at h
    · obtain ⟨tail, he, hu, hm⟩ :=
        runOctants_trace ki world eye distance fuel _ _ r h
      dsimp only [] at he hm
      refine ⟨?_, ?_, ?_, ?_, ?_⟩
      · rw [hm, he, metaFold_append]
        have h1 : metaFold [Event.timeSet time] = ObservationMetadata.empty := by
          simp [metaFold, Event.meta, or_empty_or_assoc.1]
        rw [h1, or_empty_or_assoc.2.1]
      · rw [he]
        rfl
      · intro t' ht
        rw [he] at ht
        simp only [List.singleton_append, List.drop_succ_cons,
          List.drop_zero] at ht
        obtain ⟨coord, cell, m, habs, -⟩ := hu _ ht
        exact Event.noConfusion habs
      · intro c hc
        exact Option.noConfusion hc
      · intro hnone c m hmem
        rw [he] at hmem
        rcases List.mem_cons.mp hmem with habs | hmem
        · exact Event.noConfusion habs
        · obtain ⟨coord, cell, m', heq, hget⟩ := hu _ hmem
          obtain ⟨h1, -, -⟩ := Event.cellUpdate.inj heq
          rw [← h1, hg] at hget
          exact Option.noConfusion hget
    · obtain ⟨tail, he, hu, hm⟩ :=
        runOctants_trace ki world eye distance fuel _ _ r h
      dsimp only [] at he hm
      refine ⟨?_, ?_, ?_, ?_, ?_⟩
      · rw [hm, he, metaFold_append]
        have h1 : metaFold [Event.timeSet time,
            Event.cellUpdate eye c
              (ki.update_cell (ki.set_time k time) eye c).2] =
            (ki.update_cell (ki.set_time k time) eye c).2 := by
          simp [metaFold, Event.meta, or_empty_or_assoc.2.1]
        rw [h1]
      · rw [he]
        rfl
      · intro t' ht
        rw [he] at ht
        simp only [List.cons_append, List.singleton_append,
          List.drop_succ_cons, List.drop_zero] at ht
        rcases List.mem_cons.mp ht with habs | ht
        · exact Event.noConfusion habs
        · obtain ⟨coord, cell, m, habs, -⟩ := hu _ ht
          exact Event.noConfusion habs
      · intro c' hc'
        obtain rfl := Option.some.inj hc'
        exact ⟨(ki.update_cell (ki.set_time k time) eye c).2, tail, he⟩
      · intro hnone
        exact Option.noConfusion hnone

/-- An empty world: no cell has data. -/
def worldEmpty : SpatialHashTable :=
  { width := 0
    height := 0
    cells := fun _ _ => none }

/-- The result of observing the empty world at distance 0 with one unit of
fuel per octant: one set_time event, no reports, and the eight seed
frames. -/
def rEmpty : OctRun Unit :=
  { k := ()
    metadata := ObservationMetadata.empty
    events := [Event.timeSet 5]
    pushed := [Frame.new 1 0 1 1, Frame.new 1 0 1 1, Frame.new 1 0 1 1,
      Frame.new 1 0 1 1, Frame.new 1 0 1 1, Frame.new 1 0 1 1,
      Frame.new 1 0 1 1, Frame.new 1 0 1 1] }

/-- Witness for C7: observing the empty world. -/
theorem observe_structure_witness :
    observe kiUnit ShadowcastEnv.new ⟨0, 0⟩ worldEmpty 0 5 1 () =
      some (.ok rEmpty) ∧
    (rEmpty.metadata = metaFold rEmpty.events ∧
      rEmpty.events.take 1 = [Event.timeSet 5] ∧
      (∀ t', Event.timeSet t' ∈ rEmpty.events.drop 1 → False) ∧
      (∀ c, worldEmpty.get ⟨0, 0⟩ = some c →
        ∃ m rest, rEmpty.events =
          Event.timeSet 5 :: Event.cellUpdate ⟨0, 0⟩ c m :: rest) ∧
      (worldEmpty.get ⟨0, 0⟩ = none →
        ∀ c m, Event.cellUpdate ⟨0, 0⟩ c m ∉ rEmpty.events)) :=
  ⟨by with_unfolding_all decide,
    (observe_structure kiUnit ⟨0, 0⟩ worldEmpty 0 5 1 ()).2 rEmpty
      (by with_unfolding_all decide)⟩

/-- The frame invariant of the traversal: slopes and visibility inside the
unit interval, depth at least one. -/
def FrameOk (f : Frame) : Prop :=
  0 ≤ f.min_slope ∧ f.min_slope ≤ 1 ∧ 0 ≤ f.max_slope ∧ f.max_slope ≤ 1 ∧
  0 ≤ f.visibility ∧ f.visibility ≤ 1 ∧ 1 ≤ f.depth

/-- Every cell the grid returns carries non-negative accumulated opacity. -/
def OpacityNonneg (world : SpatialHashTable) : Prop :=
  ∀ coord cell, world.get coord = some cell → 0 ≤ cell.opacity_total

/-- With slopes in range, Scan construction never raises its assertions. -/
theorem scan_new_not_error (limits : Limits) (frame : Frame) (octant : Octant)
    (distance : Nat)
    (h0 : 0 ≤ frame.min_slope) (h1 : frame.min_slope ≤ 1)
    (h2 : 0 ≤ frame.max_slope) (h3 : frame.max_slope ≤ 1) :
    ∀ e, Scan.new limits frame octant distance ≠ .error e := by
  unfold Scan.new
  rw [if_neg (not_not_intro ⟨h0, h1, h2, h3⟩)]
  split_ifs <;> simp

/-- What a successfully constructed Scan looks like. -/
theorem scan_new_some_spec (limits : Limits) (frame : Frame) (octant : Octant)
    (distance : Nat) (sc : Scan)
    (h : Scan.new limits frame octant distance = .ok (some sc)) :
    sc.frame = frame ∧ sc.limits = limits ∧ frame.depth ≤ distance ∧
    limits.lateral_min ≤ sc.start_lateral_idx ∧
    sc.start_lateral_idx ≤ limits.lateral_max ∧
    limits.lateral_min ≤ sc.end_lateral_idx ∧
    sc.end_lateral_idx ≤ limits.lateral_max := by
  unfold Scan.new at h
  split_ifs at h with hr hd hdep hst
  · exact absurd h (by simp)
  · exact absurd h (by simp)
  · exact absurd h (by simp)
  · simp only [Except.ok.injEq, Option.some.injEq] at h
    subst h
    push_neg at hst
    have hlohi : limits.lateral_min ≤ limits.lateral_max :=
      le_trans hst.1 hst.2
    exact ⟨rfl, rfl, by omega, hst.1, hst.2,
      le_min (le_max_right _ _) hlohi, min_le_right _ _⟩

/-- The transition phase only raises the slope-range assertion. -/
theorem processTransition_error {K : Type} (args : OctantArgs) (sc : Scan)
    (coord : V2 Int) (v : Rat) (st : ScanState K) (e : PanicKind)
    (h : processTransition args sc coord v st = .error e) :
    e = .slopeRange := by
  unfold processTransition at h
  by_cases hb : st.first_iteration = true
  · rw [if_pos hb] at h
    exact absurd h (by simp)
  · rw [if_neg hb] at h
    rcases hc : transitionCorner args.octant v st.previous_visibility
      with _ | c <;> rw [hc] at h
    · exact absurd h (by simp)
    · dsimp only [] at h
      split_ifs at h with hs
      simp only [Except.error.injEq] at h
      exact h.symm

/-- One scan iteration only raises the slope-range assertion. -/
theorem scanStep_error {K : Type} (ki : KnowledgeGrid K) (args : OctantArgs)
    (sc : Scan) (idx : Int) (st : ScanState K) (e : PanicKind)
    (h : scanStep ki args sc idx st = .error e) : e = .slopeRange := by
  unfold scanStep at h
  rcases hget : args.world.get (scanCoord args.octant sc.depth_idx idx)
    with _ | cell <;> rw [hget] at h <;> dsimp only [] at h
  · simp at h
  · rcases hp : processTransition args sc (scanCoord args.octant sc.depth_idx idx)
        (max (sc.frame.visibility - cell.opacity_total) 0)
        (reportCell ki args (scanCoord args.octant sc.depth_idx idx) cell st)
      with e' | stB <;> rw [hp] at h
    · simp only [Except.error.injEq] at h
      subst h
      exact processTransition_error args sc _ _ _ e' hp
    · simp at h

/-- A scan run only raises the slope-range assertion. -/
theorem scanGo_error {K : Type} (ki : KnowledgeGrid K) (args : OctantArgs)
    (sc : Scan) (idxs : List Int) (st : ScanState K) (e : PanicKind)
    (h : scanGo ki args sc idxs st = .error e) : e = .slopeRange := by
  induction idxs generalizing st with
  | nil => simp [scanGo] at h
  | cons i rest ih =>
    simp only [scanGo] at h
    rcases hstep : scanStep ki args sc i st with e' | st1 <;> rw [hstep] at h
    · simp only [Except.error.injEq] at h
      subst h
      exact scanStep_error ki args sc i st e' hstep
    · exact ih st1 h

/-- The transition phase preserves the loop-state invariants: the running
min slope stays in the unit interval and every pushed frame is well
formed. -/
theorem processTransition_inv {K : Type} (args : OctantArgs) (sc : Scan)
    (coord : V2 Int) (v : Rat) (st st' : ScanState K)
    (h : processTransition args sc coord v st = .ok st')
    (hm0 : 0 ≤ st.min_slope) (hm1 : st.min_slope ≤ 1)
    (hpv : st.first_iteration = false →
      0 ≤ st.previous_visibility ∧ st.previous_visibility ≤ 1)
    (hpushed : ∀ f ∈ st.pushed, FrameOk f)
    (hstack : ∀ f ∈ st.stack, FrameOk f) :
    (0 ≤ st'.min_slope ∧ st'.min_slope ≤ 1) ∧
    st'.first_iteration = st.first_iteration ∧
    st'.previous_visibility = st.previous_visibility ∧
    st'.previous_opaque_b = st.previous_opaque_b ∧
    (∀ f ∈ st'.pushed, FrameOk f) ∧
    (∀ f ∈ st'.stack, FrameOk f) := by
  unfold processTransition at h
  by_cases hb : st.first_iteration = true
  · rw [if_pos hb] at h
    simp only [Except.ok.injEq] at h
    subst h
    exact ⟨⟨hm0, hm1⟩, rfl, rfl, rfl, hpushed, hstack⟩
  · rw [if_neg hb] at h
    have hfirst : st.first_iteration = false := by
      simpa using hb
    rcases hc : transitionCorner args.octant v st.previous_visibility
      with _ | c <;> rw [hc] at h
    · simp only [Except.ok.injEq] at h
      subst h
      exact ⟨⟨hm0, hm1⟩, rfl, rfl, rfl, hpushed, hstack⟩
    · dsimp only [] at h
      split_ifs at h with hs hpo
      · simp only [Except.ok.injEq] at h
        subst h
        have hfok : FrameOk (Frame.new (sc.frame.depth + 1) st.min_slope
            (args.octant.compute_slope sc.limits.eye_centre
              (cell_corner coord c)) st.previous_visibility) :=
          ⟨hm0, hm1, hs.1, hs.2, (hpv hfirst).1, (hpv hfirst).2,
            by simp only [Frame.new]; omega⟩
        refine ⟨⟨hs.1, hs.2⟩, rfl, rfl, rfl, ?_, ?_⟩
        · intro f hf
          simp only [ScanState.push, List.mem_append, List.mem_singleton] at hf
          rcases hf with hf | hf
          · exact hpushed f hf
          · rw [hf]
            exact hfok
        · intro f hf
          simp only [ScanState.push, List.mem_cons] at hf
          rcases hf with hf | hf
          · rw [hf]
            exact hfok
          · exact hstack f hf
      · simp only [Except.ok.injEq] at h
        subst h
        exact ⟨⟨hs.1, hs.2⟩, rfl, rfl, rfl, hpushed, hstack⟩

/-- One scan iteration preserves the loop-state invariants, given
non-negative opacity and a well-formed scanned frame. -/
theorem scanStep_inv {K : Type} (ki : KnowledgeGrid K) (args : OctantArgs)
    (sc : Scan) (idx : Int) (st st' : ScanState K)
    (hop : OpacityNonneg args.world)
    (hfv0 : 0 ≤ sc.frame.visibility) (hfv1 : sc.frame.visibility ≤ 1)
    (hfx0 : 0 ≤ sc.frame.max_slope) (hfx1 : sc.frame.max_slope ≤ 1)
    (h : scanStep ki args sc idx st = .ok st')
    (hm0 : 0 ≤ st.min_slope) (hm1 : st.min_slope ≤ 1)
    (hpv : st.first_iteration = false →
      0 ≤ st.previous_visibility ∧ st.previous_visibility ≤ 1)
    (hpushed : ∀ f ∈ st.pushed, FrameOk f)
    (hstack : ∀ f ∈ st.stack, FrameOk f) :
    (0 ≤ st'.min_slope ∧ st'.min_slope ≤ 1) ∧
    (st'.first_iteration = false →
      0 ≤ st'.previous_visibility ∧ st'.previous_visibility ≤ 1) ∧
    (∀ f ∈ st'.pushed, FrameOk f) ∧
    (∀ f ∈ st'.stack, FrameOk f) := by
  unfold scanStep at h
  rcases hget : args.world.get (scanCoord args.octant sc.depth_idx idx)
    with _ | cell <;> rw [hget] at h <;> dsimp only [] at h
  · simp only [Except.ok.injEq] at h
    subst h
    exact ⟨⟨hm0, hm1⟩, hpv, hpushed, hstack⟩
  · have hv0 : 0 ≤ max (sc.frame.visibility - cell.opacity_total) 0 :=
      le_max_right _ _
    have hv1 : max (sc.frame.visibility - cell.opacity_total) 0 ≤ 1 := by
      have hocell := hop _ _ hget
      apply max_le <;> linarith
    rcases hp : processTransition args sc (scanCoord args.octant sc.depth_idx idx)
        (max (sc.frame.visibility - cell.opacity_total) 0)
        (reportCell ki args (scanCoord args.octant sc.depth_idx idx) cell st)
      with e | stB <;> rw [hp] at h
    · exact absurd h (by simp)
    · simp only [Except.ok.injEq] at h
      subst h
      obtain ⟨hRs, hRp, hRf, hRo, hRv, hRm⟩ :=
        reportCell_preserves ki args (scanCoord args.octant sc.depth_idx idx)
          cell st
      obtain ⟨hBm, hBf, hBv, hBo, hBpushed, hBstack⟩ :=
        processTransition_inv args sc (scanCoord args.octant sc.depth_idx idx)
          (max (sc.frame.visibility - cell.opacity_total) 0)
          (reportCell ki args (scanCoord args.octant sc.depth_idx idx) cell st)
          stB hp (by rw [hRm]; exact hm0) (by rw [hRm]; exact hm1)
          (by rw [hRf, hRv]; exact hpv) (by rw [hRp]; exact hpushed)
          (by rw [hRs]; exact hstack)
      obtain ⟨hFp, hFs, hFm, hFv, hFo, hFf, -, -, -⟩ :=
        finishCell_fields sc (idx == sc.end_lateral_idx)
          (max (sc.frame.visibility - cell.opacity_total) 0) stB
      have hfok : FrameOk (Frame.new (sc.frame.depth + 1) stB.min_slope
          sc.frame.max_slope (max (sc.frame.visibility - cell.opacity_total) 0)) :=
        ⟨hBm.1, hBm.2, hfx0, hfx1, hv0, hv1, by simp only [Frame.new]; omega⟩
      refine ⟨⟨by rw [hFm]; exact hBm.1, by rw [hFm]; exact hBm.2⟩,
        fun _ => ⟨by rw [hFv]; exact hv0, by rw [hFv]; exact hv1⟩, ?_, ?_⟩
      · intro f hf
        rw [hFp] at hf
        rcases List.mem_append.mp hf with hf | hf
        · exact hBpushed f hf
        · by_cases hcond2 : (idx == sc.end_lateral_idx) = true ∧
            ¬max (sc.frame.visibility - cell.opacity_total) 0 = 0
          · simp only [if_pos hcond2, List.mem_singleton] at hf
            rw [hf]
            exact hfok
          · rw [if_neg hcond2] at hf
            exact absurd hf (List.not_mem_nil f)
      · intro f hf
        rw [hFs] at hf
        rcases List.mem_append.mp hf with hf | hf
        · by_cases hcond2 : (idx == sc.end_lateral_idx) = true ∧
            ¬max (sc.frame.visibility - cell.opacity_total) 0 = 0
          · simp only [if_pos hcond2, List.mem_singleton] at hf
            rw [hf]
            exact hfok
          · rw [if_neg hcond2] at hf
            exact absurd hf (List.not_mem_nil f)
        · exact hBstack f hf

/-- A scan run across a list of indices preserves the loop-state
invariants. -/
theorem scanGo_inv {K : Type} (ki : KnowledgeGrid K) (args : OctantArgs)
    (sc : Scan) (idxs : List Int) (st st' : ScanState K)
    (hop : OpacityNonneg args.world)
    (hfv0 : 0 ≤ sc.frame.visibility) (hfv1 : sc.frame.visibility ≤ 1)
    (hfx0 : 0 ≤ sc.frame.max_slope) (hfx1 : sc.frame.max_slope ≤ 1)
    (h : scanGo ki args sc idxs st = .ok st')
    (hm0 : 0 ≤ st.min_slope) (hm1 : st.min_slope ≤ 1)
    (hpv : st.first_iteration = false →
      0 ≤ st.previous_visibility ∧ st.previous_visibility ≤ 1)
    (hpushed : ∀ f ∈ st.pushed, FrameOk f)
    (hstack : ∀ f ∈ st.stack, FrameOk f) :
    (∀ f ∈ st'.pushed, FrameOk f) ∧ (∀ f ∈ st'.stack, FrameOk f) := by
  induction idxs generalizing st with
  | nil =>
    simp only [scanGo, Except.ok.injEq] at h
    subst h
    exact ⟨hpushed, hstack⟩
  | cons i rest ih =>
    simp only [scanGo] at h
    rcases hstep : scanStep ki args sc i st with e | st1 <;> rw [hstep] at h
    · exact absurd h (by simp)
    · obtain ⟨⟨h1a, h1b⟩, h1pv, h1pushed, h1stack⟩ :=
        scanStep_inv ki args sc i st st1 hop hfv0 hfv1 hfx0 hfx1 hstep
          hm0 hm1 hpv hpushed hstack
      exact ih st1 h h1a h1b h1pv h1pushed h1stack

/-- One execution of the row scanner preserves the frame invariants: with a
well-formed frame and non-negative opacity, every frame it pushes and every
frame on the resulting stack is well formed. -/
theorem scan_inv {K : Type} (ki : KnowledgeGrid K) (args : OctantArgs)
    (sc : Scan) (stack : List Frame) (k : K) (out : ScanState K)
    (hop : OpacityNonneg args.world) (hfr : FrameOk sc.frame)
    (h : scan ki args sc stack k = .ok out)
    (hstack : ∀ f ∈ stack, FrameOk f) :
    (∀ f ∈ out.pushed, FrameOk f) ∧ (∀ f ∈ out.stack, FrameOk f) := by
  obtain ⟨hfm0, hfm1, hfx0, hfx1, hfv0, hfv1, -⟩ := hfr
  exact scanGo_inv ki args sc _ _ out hop hfv0 hfv1 hfx0 hfx1 h hfm0 hfm1
    (by intro hfalse; exact absurd hfalse (by simp))
    (by intro f hf; simp at hf) hstack

/-- The pop loop preserves the frame invariant: with a well-formed stack
and pushed log, it never fails the Scan-construction range assertions and
every frame it logs as pushed is well formed. -/
theorem runStack_inv {K : Type} (ki : KnowledgeGrid K) (args : OctantArgs)
    (limits : Limits) (fuel : Nat) (stack : List Frame) (acc : OctRun K)
    (x : Except PanicKind (OctRun K))
    (hop : OpacityNonneg args.world)
    (hstack : ∀ f ∈ stack, FrameOk f)
    (hacc : ∀ f ∈ acc.pushed, FrameOk f)
    (h : runStack ki args limits fuel stack acc = some x) :
    x ≠ .error .frameRange ∧
    (∀ r, x = .ok r → ∀ f ∈ r.pushed, FrameOk f) := by
  induction fuel generalizing stack acc with
  | zero =>
    cases stack with
    | nil =>
      simp only [runStack, Option.some.injEq] at h
      subst h
      exact ⟨by simp, fun r hr => by
        simp only [Except.ok.injEq] at hr
        subst hr
        exact hacc⟩
    | cons f rest => simp [runStack] at h
  | succ n ih =>
    cases stack with
    | nil =>
      simp only [runStack, Option.some.injEq] at h
      subst h
      exact ⟨by simp, fun r hr => by
        simp only [Except.ok.injEq] at hr
        subst hr
        exact hacc⟩
    | cons f rest =>
      simp only [runStack] at h
      rcases hn : Scan.new limits f args.octant args.distance
        with e | osc <;> rw [hn] at h
      · have hfOk := hstack f (List.mem_cons_self f rest)
        exact absurd hn (scan_new_not_error limits f args.octant
          args.distance hfOk.1 hfOk.2.1 hfOk.2.2.1 hfOk.2.2.2.1 e)
      · rcases osc with _ | sc
        · exact ih rest acc
            (fun g hg => hstack g (List.mem_cons_of_mem f hg)) hacc h
        · dsimp only [] at h
          rcases hs : scan ki args sc rest acc.k with e | st <;> rw [hs] at h
          · simp only [Option.some.injEq] at h
            subst h
            have he := scanGo_error ki args sc _ _ e hs
            subst he
            exact ⟨by simp, fun r hr => Except.noConfusion hr⟩
          · have hfOk := hstack f (List.mem_cons_self f rest)
            obtain ⟨hfr, -, -, -, -, -, -⟩ :=
              scan_new_some_spec limits f args.octant args.distance sc hn
            have hsInv := scan_inv ki args sc rest acc.k st hop (hfr ▸ hfOk) hs
              (fun g hg => hstack g (List.mem_cons_of_mem f hg))
            refine ih st.stack _ hsInv.2 ?_ h
            intro g hg
            dsimp only [] at hg
            rcases List.mem_append.mp hg with hg | hg
            · exact hacc g hg
            · exact hsInv.1 g hg

/-- The seed frame is well formed. -/
theorem seed_frame_ok : FrameOk (Frame.new 1 0 1 1) := by
  refine ⟨?_, ?_, ?_, ?_, ?_, ?_, ?_⟩ <;> norm_num [Frame.new]

/-- The octant loop preserves the frame invariant. -/
theorem runOctants_inv {K : Type} (ki : KnowledgeGrid K)
    (world : SpatialHashTable) (eye : V2 Int) (distance fuel : Nat)
    (octs : List Octant) (acc : OctRun K) (x : Except PanicKind (OctRun K))
    (hop : OpacityNonneg world)
    (hacc : ∀ f ∈ acc.pushed, FrameOk f)
    (h : runOctants ki world eye distance fuel octs acc = some x) :
    x ≠ .error .frameRange ∧
    (∀ r, x = .ok r → ∀ f ∈ r.pushed, FrameOk f) := by
  induction octs generalizing acc with
  | nil =>
    simp only [runOctants, Option.some.injEq] at h
    subst h
    exact ⟨by simp, fun r hr => by
      simp only [Except.ok.injEq] at hr
      subst hr
      exact hacc⟩
  | cons octant rest ih =>
    simp only [runOctants] at h
    rcases hd : detect_visible_area_octant ki
        (OctantArgs.new octant world eye distance 0 1) fuel acc.k
      with _ | er <;> rw [hd] at h
    · simp at h
    · have hseed : ∀ f ∈ [Frame.new (1 : Nat) (0 : Rat) 1 1], FrameOk f := by
        intro f hf
        simp only [List.mem_singleton] at hf
        rw [hf]
        exact seed_frame_ok
      have hdi := runStack_inv ki (OctantArgs.new octant world eye distance 0 1)
        (Limits.new eye world octant) fuel [Frame.new 1 0 1 1]
        { k := acc.k
          metadata := ObservationMetadata.empty
          events := []
          pushed := [Frame.new 1 0 1 1] } er hop hseed hseed hd
      rcases er with e | r0
      · simp only [Option.some.injEq] at h
        subst h
        exact ⟨hdi.1, fun r hr => Except.noConfusion hr⟩
      · dsimp only [] at h
        refine ih _ ?_ h
        intro g hg
        dsimp only [] at hg
        rcases List.mem_append.mp hg with hg | hg
        · exact hacc g hg
        · exact hdi.2 r0 rfl g hg

/-- C10: with non-negative opacity everywhere, every frame pushed during a
run of observe — per-octant seed frames included — has both slopes and the
visibility inside the unit interval and depth at least one, and the four
range assertions at the top of Scan construction never fail. -/
theorem traversal_frame_invariants {K : Type} (ki : KnowledgeGrid K)
    (eye : V2 Int) (world : SpatialHashTable) (distance time fuel : Nat)
    (k : K) (hop : OpacityNonneg world) :
    observe ki ShadowcastEnv.new eye world distance time fuel k ≠
      some (.error .frameRange) ∧
    (∀ r, observe ki ShadowcastEnv.new eye world distance time fuel k =
        some (.ok r) → ∀ f ∈ r.pushed, FrameOk f) := by
  unfold observe
  rcases hg : world.get eye with _ | c <;> dsimp only []
  · constructor
    · intro habs
      exact (runOctants_inv ki world eye distance fuel _ _ _ hop
        (by intro f hf; simp at hf) habs).1 rfl
    · intro r hr
      exact (runOctants_inv ki world eye distance fuel _ _ _ hop
        (by intro f hf; simp at hf) hr).2 r rfl
  · constructor
    · intro habs
      exact (runOctants_inv ki world eye distance fuel _ _ _ hop
        (by intro f hf; simp at hf) habs).1 rfl
    · intro r hr
      exact (runOctants_inv ki world eye distance fuel _ _ _ hop
        (by intro f hf; simp at hf) hr).2 r rfl

/-- The tiny world has non-negative opacity everywhere. -/
theorem worldTiny_opacity_nonneg : OpacityNonneg worldTiny := by
  intro coord cell h
  simp only [worldTiny, SpatialHashTable.get] at h
  split at h
  · obtain rfl := Option.some.inj h
    norm_num
  · exact absurd h (by simp)

/-- Witness for C10: observing the fully transparent tiny world. -/
theorem traversal_frame_invariants_witness :
    OpacityNonneg worldTiny ∧
    (observe kiUnit ShadowcastEnv.new ⟨0, 0⟩ worldTiny 2 7 9 () ≠
      some (.error .frameRange) ∧
    (∀ r, observe kiUnit ShadowcastEnv.new ⟨0, 0⟩ worldTiny 2 7 9 () =
        some (.ok r) → ∀ f ∈ r.pushed, FrameOk f)) :=
  ⟨worldTiny_opacity_nonneg,
    traversal_frame_invariants kiUnit ⟨0, 0⟩ worldTiny 2 7 9 ()
      worldTiny_opacity_nonneg⟩

/-- The number of lateral indices a scan visits. -/
theorem scanIndices_length (start step : Int) (n : Nat) :
    (scanIndices start step n).length = n := by
  induction n generalizing start with
  | zero => rfl
  | succ m ih => simp [scanIndices, ih]

/-- A constructed Scan visits at most lateral_max - lateral_min + 1
indices, for the octant step directions of the table. -/
theorem scanLen_le (limits : Limits) (frame : Frame) (octant : Octant)
    (distance : Nat) (sc : Scan)
    (hstep : octant.lateral_step = 1 ∨ octant.lateral_step = -1)
    (h : Scan.new limits frame octant distance = .ok (some sc)) :
    scanLen octant sc ≤ (limits.lateral_max - limits.lateral_min + 1).toNat := by
  obtain ⟨-, -, -, h1, h2, h3, h4⟩ :=
    scan_new_some_spec limits frame octant distance sc h
  unfold scanLen
  rcases hstep with hs | hs <;> rw [hs] <;>
    apply Int.toNat_le_toNat <;> omega

/-- The weight of a frame in the termination measure: exponential in the
remaining depth budget. -/
def frameWeight (B distance : Nat) (f : Frame) : Nat :=
  (B + 1) ^ (distance + 1 - f.depth)

/-- The termination measure of a frame stack. -/
def stackWeight (B distance : Nat) (stack : List Frame) : Nat :=
  (stack.map (frameWeight B distance)).sum

/-- Every frame weighs at least one unit. -/
theorem frameWeight_pos (B distance : Nat) (f : Frame) :
    1 ≤ frameWeight B distance f :=
  Nat.one_le_pow _ _ (by omega)

/-- The measure of a pushed-down stack. -/
theorem stackWeight_cons (B distance : Nat) (f : Frame) (rest : List Frame) :
    stackWeight B distance (f :: rest) =
      frameWeight B distance f + stackWeight B distance rest := by
  simp [stackWeight]

/-- The measure splits over append and ignores reversal. -/
theorem stackWeight_reverse_append (B distance : Nat) (a b : List Frame) :
    stackWeight B distance (a.reverse ++ b) =
      stackWeight B distance a + stackWeight B distance b := by
  simp [stackWeight, List.sum_reverse]

/-- The measure of a stack of frames of one common depth. -/
theorem stackWeight_const (B distance : Nat) (l : List Frame) (d : Nat)
    (h : ∀ f ∈ l, f.depth = d) :
    stackWeight B distance l = l.length * (B + 1) ^ (distance + 1 - d) := by
  induction l with
  | nil => simp [stackWeight]
  | cons a rest ih =>
    rw [stackWeight_cons, ih (fun f hf => h f (List.mem_cons_of_mem a hf))]
    simp only [List.length_cons, frameWeight, h a (List.mem_cons_self a rest)]
    ring

/-- The pop loop terminates within fuel equal to the stack's measure:
every frame a row scan pushes sits at depth one past the popped frame's,
rows deeper than the view distance construct no Scan, and one row pushes
at most twice the lateral extent of the grid. -/
theorem runStack_total {K : Type} (ki : KnowledgeGrid K) (args : OctantArgs)
    (limits : Limits)
    (hstep : args.octant.lateral_step = 1 ∨ args.octant.lateral_step = -1) :
    ∀ (n : Nat) (stack : List Frame) (acc : OctRun K),
      stackWeight (2 * (limits.lateral_max - limits.lateral_min + 1).toNat + 1)
        args.distance stack ≤ n →
      (runStack ki args limits n stack acc).isSome := by
  intro n
  induction n with
  | zero =>
    intro stack acc hw
    cases stack with
    | nil => simp [runStack]
    | cons f rest =>
      rw [stackWeight_cons] at hw
      have := frameWeight_pos
        (2 * (limits.lateral_max - limits.lateral_min + 1).toNat + 1)
        args.distance f
      omega
  | succ n ih =>
    intro stack acc hw
    cases stack with
    | nil => simp [runStack]
    | cons f rest =>
      simp only [runStack]
      rcases hn : Scan.new limits f args.octant args.distance with e | osc
      · simp
      · rcases osc with _ | sc
        · refine ih rest acc ?_
          rw [stackWeight_cons] at hw
          have := frameWeight_pos
            (2 * (limits.lateral_max - limits.lateral_min + 1).toNat + 1)
            args.distance f
          omega
        · dsimp only []
          rcases hs : scan ki args sc rest acc.k with e | st
          · simp
          · obtain ⟨hshape, hlen, hdepth⟩ :=
              scan_shape ki args sc rest acc.k st hs
            obtain ⟨hfr, -, hdep, -, -, -, -⟩ :=
              scan_new_some_spec limits f args.octant args.distance sc hn
            refine ih st.stack _ ?_
            rw [hshape, stackWeight_reverse_append]
            rw [scanIndices_length] at hlen
            have hLb := scanLen_le limits f args.octant args.distance sc
              hstep hn
            rw [stackWeight_cons] at hw
            have hsum := stackWeight_const
              (2 * (limits.lateral_max - limits.lateral_min + 1).toNat + 1)
              args.distance st.pushed (sc.frame.depth + 1) hdepth
            rw [hsum]
            rw [hfr] at *
            have hexp : args.distance + 1 - (f.depth + 1) =
                args.distance - f.depth := by omega
            rw [hexp]
            have hwf : frameWeight
                (2 * (limits.lateral_max - limits.lateral_min + 1).toNat + 1)
                args.distance f =
                (2 * (limits.lateral_max - limits.lateral_min + 1).toNat + 2) *
                  (2 * (limits.lateral_max - limits.lateral_min + 1).toNat + 1 + 1)
                    ^ (args.distance - f.depth) := by
              unfold frameWeight
              have hexp2 : args.distance + 1 - f.depth =
                  (args.distance - f.depth) + 1 := by omega
              rw [hexp2, pow_succ]
              ring
            rw [hwf] at hw
            have hX : 1 ≤ (2 * (limits.lateral_max - limits.lateral_min +
                1).toNat + 1 + 1) ^ (args.distance - f.depth) :=
              Nat.one_le_pow _ _ (by omega)
            have hmul : st.pushed.length *
                (2 * (limits.lateral_max - limits.lateral_min + 1).toNat + 1 + 1)
                  ^ (args.distance - f.depth) ≤
                (2 * (limits.lateral_max - limits.lateral_min + 1).toNat) *
                (2 * (limits.lateral_max - limits.lateral_min + 1).toNat + 1 + 1)
                  ^ (args.distance - f.depth) :=
              Nat.mul_le_mul_right _ (by omega)
            generalize hA : (2 * (limits.lateral_max - limits.lateral_min +
              1).toNat + 1 + 1) ^ (args.distance - f.depth) = X at hX hmul hw
            generalize hLbv : (limits.lateral_max - limits.lateral_min +
              1).toNat = L at hmul hw
            generalize hY : L * X = Y at *
            have h2L : 2 * L * X = 2 * Y := by rw [← hY]; ring
            have h2L2 : (2 * L + 2) * X = 2 * Y + 2 * X := by
              rw [← hY]; ring
            rw [h2L] at hmul
            rw [h2L2] at hw
            omega

/-- C6: every per-octant traversal terminates — some finite fuel drives
the frame stack to exhaustion for any grid, eye and opacity assignment. -/
theorem octant_traversal_terminates {K : Type} (ki : KnowledgeGrid K)
    (world : SpatialHashTable) (eye : V2 Int) (distance : Nat)
    (octant : Octant) (hoct : octant ∈ ShadowcastEnv.new.octants) (k : K) :
    ∃ fuel r, detect_visible_area_octant ki
      (OctantArgs.new octant world eye distance 0 1) fuel k = some r := by
  have hstep : octant.lateral_step = 1 ∨ octant.lateral_step = -1 :=
    (show ∀ o ∈ ShadowcastEnv.new.octants,
        o.lateral_step = 1 ∨ o.lateral_step = -1 by
      with_unfolding_all decide) octant hoct
  refine ⟨stackWeight
    (2 * ((Limits.new eye world octant).lateral_max -
      (Limits.new eye world octant).lateral_min + 1).toNat + 1)
    distance [Frame.new 1 0 1 1], ?_⟩
  have h := runStack_total ki (OctantArgs.new octant world eye distance 0 1)
    (Limits.new eye world octant) hstep
    (stackWeight
      (2 * ((Limits.new eye world octant).lateral_max -
        (Limits.new eye world octant).lateral_min + 1).toNat + 1)
      distance [Frame.new 1 0 1 1])
    [Frame.new 1 0 1 1]
    { k := k
      metadata := ObservationMetadata.empty
      events := []
      pushed := [Frame.new 1 0 1 1] }
    (le_refl _)
  obtain ⟨r, hr⟩ := Option.isSome_iff_exists.mp h
  exact ⟨r, hr⟩

/-- Witness for C6: the first octant of the table over the tiny world. -/
theorem octant_traversal_terminates_witness :
    ((Octant.new? .West .South).getD octES ∈ ShadowcastEnv.new.octants) ∧
    ∃ fuel r, detect_visible_area_octant kiUnit
      (OctantArgs.new ((Octant.new? .West .South).getD octES) worldTiny
        ⟨0, 0⟩ 2 0 1) fuel () = some r :=
  ⟨by with_unfolding_all decide,
    octant_traversal_terminates kiUnit worldTiny ⟨0, 0⟩ 2
      ((Octant.new? .West .South).getD octES)
      (by with_unfolding_all decide) ()⟩

end Veil
